import Mathlib

/-!
Shallow embedding of the discrete-event toll-plaza simulation engine
(`simulation.py`) and proofs of the specification's claims about it.

Modelling conventions:
* simulated clock times are rationals (the Python code uses floats, but all
  claim-relevant arithmetic is exact: sums of arrival gaps and integer service
  durations);
* the two sources of randomness — the `random.expovariate` inter-arrival draws
  and the axle-count draws made inside `Vehicle.__init__` — are abstracted into
  input streams `gaps : ℕ → ℚ` (indexed by draw number) and `axs : ℕ → ℕ`
  (indexed by vehicle id).  Python's `expovariate` returns non-negative values,
  which becomes the hypothesis `∀ n, 0 ≤ gaps n` where needed;
* the `heapq` priority queue is modelled as a plain list together with
  `popMin`, which removes a minimal element under the exact Python tuple
  ordering of the heap entries `(time, kind_string [, booth_id])`; since two
  distinct pending events never compare equal under that ordering (equal keys
  force equal tuples), any min-extraction strategy agrees with `heapq`;
* Python runtime failures (`ZeroDivisionError` in the constructor,
  `ValueError` from `min([])`, `AttributeError` from `None.departure_time`)
  are modelled explicitly (`Except` for the constructor, `StepRes.crash` in
  the loop);
* the loop additionally emits one `TraceEv` per handled event, an observer of
  exactly what the source prints/updates at each event (arrival handled,
  service started, service finished with the computed wait).
-/

set_option maxHeartbeats 1000000

/-- Vehicle record from `Vehicle.__init__`: an id, the arrival time, a
`departure_time` initialised to `0` (the "not yet departed" placeholder: it is
only ever written again when `FINISH_PROCESSING` is handled), and the axle
count.  The axle count is the value drawn from the vehicle-type distribution;
the draw itself is abstracted into the input stream `axs`.  The `vehicle_type`
and `speed` attributes are generated but never read by any computation in the
engine, so they are not part of the model. -/
structure Vehicle where
  id : ℕ
  arrival_time : ℚ
  departure_time : ℚ
  axles : ℕ
deriving DecidableEq, Repr

/-- Toll booth record from `TollBooth.__init__`: an id, a FIFO queue (list head
= front of the queue), the busy flag and the vehicle currently in service. -/
structure TollBooth where
  id : ℕ
  vehicle_queue : List Vehicle
  is_busy : Bool
  current_vehicle : Option Vehicle
deriving DecidableEq, Repr

/-- `TollBooth.get_queue_length`. -/
def TollBooth.get_queue_length (b : TollBooth) : ℕ := b.vehicle_queue.length

/-- `TollBooth.add_vehicle`: append at the back of the FIFO queue. -/
def TollBooth.add_vehicle (b : TollBooth) (v : Vehicle) : TollBooth :=
  { b with vehicle_queue := b.vehicle_queue ++ [v] }

/-- Heap entries of `simulation.py`: the tuples `(time, "VEHICLE_ARRIVAL")`,
`(time, "START_PROCESSING", booth_id)` and `(time, "FINISH_PROCESSING",
booth_id)`. -/
inductive Event where
  | arrival (time : ℚ)
  | start (time : ℚ) (booth : ℕ)
  | finish (time : ℚ) (booth : ℕ)
deriving DecidableEq, Repr

/-- Scheduled time of an event (first component of the Python tuple). -/
def Event.time : Event → ℚ
  | .arrival t => t
  | .start t _ => t
  | .finish t _ => t

/-- Rank of the event-kind string under Python string comparison:
`"FINISH_PROCESSING" < "START_PROCESSING" < "VEHICLE_ARRIVAL"`. -/
def Event.rank : Event → ℕ
  | .finish _ _ => 0
  | .start _ _ => 1
  | .arrival _ => 2

/-- Third tuple component; arrival tuples have no third component, but they
also never tie with a start/finish on the first two components, so any
constant works for them. -/
def Event.boothId : Event → ℕ
  | .arrival _ => 0
  | .start _ b => b
  | .finish _ b => b

/-- Python's lexicographic comparison of the heap tuples. -/
def evLE (a b : Event) : Prop :=
  a.time < b.time ∨
    (a.time = b.time ∧
      (a.rank < b.rank ∨ (a.rank = b.rank ∧ a.boothId ≤ b.boothId)))

instance (a b : Event) : Decidable (evLE a b) := by
  unfold evLE; infer_instance

/-- `heapq.heappush`: since extraction is by `popMin`, pushing is just
appending to the underlying container. -/
def heappush (q : List Event) (e : Event) : List Event := q ++ [e]

/-- `heapq.heappop`: remove and return a minimal element (leftmost among
equals — equal keys only occur for identical events, so this is exactly the
heap's behaviour). -/
def popMin : List Event → Option (Event × List Event)
  | [] => none
  | e :: es =>
    match popMin es with
    | none => some (e, [])
    | some (m, rest) => if evLE e m then some (e, es) else some (m, e :: rest)

/-- Observation of one handled event: what the loop body does (and mostly
prints) for the popped event.  `startSkip` is a `START_PROCESSING` event popped
while the booth's queue is empty (the body does nothing).  `finishEv` carries
the computed wait time exactly as printed by the source. -/
inductive TraceEv where
  | arrivalEv (t : ℚ) (vid : ℕ) (booth : ℕ)
  | startEv (t : ℚ) (booth : ℕ) (vid : ℕ)
  | startSkip (t : ℚ) (booth : ℕ)
  | finishEv (t : ℚ) (booth : ℕ) (vid : ℕ) (wait : ℚ)
deriving DecidableEq, Repr

/-- Time at which the traced event was handled (= the popped event's time). -/
def TraceEv.time : TraceEv → ℚ
  | .arrivalEv t _ _ => t
  | .startEv t _ _ => t
  | .startSkip t _ => t
  | .finishEv t _ _ _ => t

/-- State of `TollPlaza`: booth pool, clock, event heap and the running
counters, plus `gapIdx`, the position in the abstracted stream of
`random.expovariate` draws (each call to `_get_next_arrival_time` consumes one
draw). -/
structure TollPlaza where
  booths : List TollBooth
  simulation_time : ℚ
  event_queue : List Event
  vehicles_processed : ℕ
  total_wait_time : ℚ
  next_vehicle_id : ℕ
  avg_arrival_interval : ℚ
  gapIdx : ℕ
deriving DecidableEq, Repr

/-- The only failure the Python constructor can produce: `3600 /
vehicles_per_hour` raises `ZeroDivisionError` when the rate is zero. -/
inductive PyError where
  | zeroDivisionError
deriving DecidableEq, Repr

/-- Plaza state as built by `TollPlaza.__init__` once the division has
succeeded: `num_booths` fresh booths `TollBooth(0) … TollBooth(n-1)`, clock at
0, empty heap, zeroed counters. -/
def mkPlaza (num_booths : ℕ) (itv : ℚ) : TollPlaza :=
  { booths := (List.range num_booths).map fun i =>
      { id := i, vehicle_queue := [], is_busy := false, current_vehicle := none }
    simulation_time := 0
    event_queue := []
    vehicles_processed := 0
    total_wait_time := 0
    next_vehicle_id := 0
    avg_arrival_interval := itv
    gapIdx := 0 }

/-- `TollPlaza.__init__(num_booths, vehicles_per_hour)`.  The body performs no
validation whatsoever: the only thing that can fail is the division
`3600 / vehicles_per_hour` (a `ZeroDivisionError` when the rate is zero).
A zero booth count and a negative rate are accepted without complaint. -/
def TollPlaza.init (num_booths : ℕ) (vehicles_per_hour : ℚ) :
    Except PyError TollPlaza :=
  if vehicles_per_hour = 0 then .error .zeroDivisionError
  else .ok (mkPlaza num_booths (3600 / vehicles_per_hour))

/-- `TollPlaza._get_next_arrival_time`: current clock plus one exponential
draw (the draw abstracted as `gaps p.gapIdx`). -/
def get_next_arrival_time (gaps : ℕ → ℚ) (p : TollPlaza) : ℚ :=
  p.simulation_time + gaps p.gapIdx

/-- `TollPlaza._schedule_vehicle_arrival`: push `(arrival_time,
"VEHICLE_ARRIVAL")` onto the heap, unconditionally — there is no check of the
requested time against the clock. -/
def schedule_vehicle_arrival (gaps : ℕ → ℚ) (p : TollPlaza) : TollPlaza :=
  { p with
      event_queue := heappush p.event_queue (.arrival (get_next_arrival_time gaps p))
      gapIdx := p.gapIdx + 1 }

/-- `TollPlaza._get_shortest_queue_booth`, i.e. `min(booths, key=queue
length)`, returned together with the booth's position in the list.  Python's
`min` keeps the current best on ties, hence returns the leftmost minimal
element; the fold below keeps the left element when it is `≤` the best of the
rest, which yields the same leftmost-minimum. -/
def minBoothAux : List TollBooth → Option (ℕ × TollBooth)
  | [] => none
  | b :: bs =>
    match minBoothAux bs with
    | none => some (0, b)
    | some (i, m) =>
      if b.get_queue_length ≤ m.get_queue_length then some (0, b)
      else some (i + 1, m)

/-- Result of one iteration of the `while` loop: the loop condition failed
(`done`), the body raised a Python exception (`crash`: `min` of an empty booth
list, an out-of-range booth id, or `FINISH_PROCESSING` with no vehicle in
service), or the body ran, yielding the new state and the trace of what was
handled. -/
inductive StepRes where
  | done
  | crash
  | next (st : TollPlaza) (ev : TraceEv)
deriving DecidableEq, Repr

/-- One iteration of the event loop in `TollPlaza.run_simulation`: test the
`while` condition, pop the earliest event, advance the clock to its time, and
dispatch on the event kind exactly as the source does. -/
def stepSim (gaps : ℕ → ℚ) (axs : ℕ → ℕ) (dur : ℚ) (st : TollPlaza) : StepRes :=
  if st.event_queue = [] then .done
  else if ¬ st.simulation_time < dur then .done
  else
    match popMin st.event_queue with
    | none => .done
    | some (e, rest) =>
      match e with
      | .arrival t =>
        let vid := st.next_vehicle_id + 1
        let v : Vehicle := { id := vid, arrival_time := t, departure_time := 0, axles := axs vid }
        match minBoothAux st.booths with
        | none => .crash
        | some (bi, b) =>
          let b1 := b.add_vehicle v
          let q1 := if b.is_busy then rest else heappush rest (.start t b.id)
          let p1 : TollPlaza :=
            { st with
                simulation_time := t
                booths := st.booths.set bi b1
                event_queue := heappush q1 (.arrival (t + gaps st.gapIdx))
                next_vehicle_id := vid
                gapIdx := st.gapIdx + 1 }
          .next p1 (.arrivalEv t vid b.id)
      | .start t bi =>
        match st.booths.get? bi with
        | none => .crash
        | some b =>
          match b.vehicle_queue with
          | [] => .next { st with simulation_time := t, event_queue := rest } (.startSkip t bi)
          | v :: vq =>
            let b1 : TollBooth :=
              { b with is_busy := true, current_vehicle := some v, vehicle_queue := vq }
            let processing_time : ℚ := (v.axles : ℚ) * 2
            let p1 : TollPlaza :=
              { st with
                  simulation_time := t
                  booths := st.booths.set bi b1
                  event_queue := heappush rest (.finish (t + processing_time) b.id) }
            .next p1 (.startEv t bi v.id)
      | .finish t bi =>
        match st.booths.get? bi with
        | none => .crash
        | some b =>
          match b.current_vehicle with
          | none => .crash
          | some pv =>
            let wait_time : ℚ := t - pv.arrival_time
            let b1 : TollBooth := { b with is_busy := false, current_vehicle := none }
            let q1 := if b.vehicle_queue = [] then rest else heappush rest (.start t b.id)
            let p1 : TollPlaza :=
              { st with
                  simulation_time := t
                  booths := st.booths.set bi b1
                  event_queue := q1
                  total_wait_time := st.total_wait_time + wait_time
                  vehicles_processed := st.vehicles_processed + 1 }
            .next p1 (.finishEv t bi pv.id wait_time)

/-- How a (fuel-bounded) run ended: the `while` condition became false
(`finished`), the body raised (`crashed`), or the fuel ran out with the loop
still live (`fuelOut`). -/
inductive RunStatus where
  | finished
  | crashed
  | fuelOut
deriving DecidableEq, Repr

/-- Fuel-indexed iteration of the loop, accumulating the trace of handled
events. -/
def runAux (gaps : ℕ → ℚ) (axs : ℕ → ℕ) (dur : ℚ) :
    ℕ → TollPlaza → TollPlaza × List TraceEv × RunStatus
  | 0, st => (st, [], .fuelOut)
  | n + 1, st =>
    match stepSim gaps axs dur st with
    | .done => (st, [], .finished)
    | .crash => (st, [], .crashed)
    | .next st1 ev =>
      let r := runAux gaps axs dur n st1
      (r.1, ev :: r.2.1, r.2.2)

/-- `TollPlaza.run_simulation(duration_seconds)`: schedule the very first
arrival, then run the loop. -/
def run_simulation (gaps : ℕ → ℚ) (axs : ℕ → ℕ) (dur : ℚ) (fuel : ℕ)
    (p : TollPlaza) : TollPlaza × List TraceEv × RunStatus :=
  runAux gaps axs dur fuel (schedule_vehicle_arrival gaps p)

/-- Summary reported by `TollPlaza.print_statistics`; `average_wait_time =
none` models the "No vehicles were processed." message printed instead of an
average when the count is zero. -/
structure SimStats where
  vehicles_processed : ℕ
  average_wait_time : Option ℚ
  remaining_queued : ℕ
deriving DecidableEq, Repr

/-- `TollPlaza.print_statistics`: the processed count; the average
`total_wait_time / vehicles_processed` only when the count is positive (the
zero case prints the explicit message, modelled as `none`); and the sum of all
booth queue lengths. -/
def print_statistics (p : TollPlaza) : SimStats :=
  { vehicles_processed := p.vehicles_processed
    average_wait_time :=
      if 0 < p.vehicles_processed then
        some (p.total_wait_time / (p.vehicles_processed : ℚ))
      else none
    remaining_queued := (p.booths.map fun b => b.get_queue_length).sum }

/-! ### Concrete scenario: single booth, forced arrivals at 0, 1, 100 -/

/-- Gap stream of draws 0, 1, 99 (then 1000): forces arrivals at times 0, 1,
100, with the fourth arrival at 1100, beyond the simulated horizon. -/
def g104 : ℕ → ℚ := fun n =>
  if n = 0 then 0 else if n = 1 then 1 else if n = 2 then 99 else 1000

/-- Axle stream making every vehicle a 2-axle car, so every service lasts
exactly 4 seconds. -/
def axs2 : ℕ → ℕ := fun _ => 2

/-- State right after `run_simulation` has scheduled the very first arrival. -/
def sc0 : TollPlaza :=
  { booths := [{ id := 0, vehicle_queue := [], is_busy := false, current_vehicle := none }]
    simulation_time := 0
    event_queue := [Event.arrival 0]
    vehicles_processed := 0
    total_wait_time := 0
    next_vehicle_id := 0
    avg_arrival_interval := 18
    gapIdx := 1 }

/-- After handling the arrival at time 0: vehicle 1 queued, start scheduled. -/
def sc1 : TollPlaza :=
  { booths := [{ id := 0
                 vehicle_queue := [{ id := 1, arrival_time := 0, departure_time := 0, axles := 2 }]
                 is_busy := false
                 current_vehicle := none }]
    simulation_time := 0
    event_queue := [Event.start 0 0, Event.arrival 1]
    vehicles_processed := 0
    total_wait_time := 0
    next_vehicle_id := 1
    avg_arrival_interval := 18
    gapIdx := 2 }

/-- After the start at time 0: vehicle 1 in service, finish scheduled at 4. -/
def sc2 : TollPlaza :=
  { booths := [{ id := 0
                 vehicle_queue := []
                 is_busy := true
                 current_vehicle := some { id := 1, arrival_time := 0, departure_time := 0, axles := 2 } }]
    simulation_time := 0
    event_queue := [Event.arrival 1, Event.finish 4 0]
    vehicles_processed := 0
    total_wait_time := 0
    next_vehicle_id := 1
    avg_arrival_interval := 18
    gapIdx := 2 }

/-- After the arrival at time 1: vehicle 2 queued behind the busy booth. -/
def sc3 : TollPlaza :=
  { booths := [{ id := 0
                 vehicle_queue := [{ id := 2, arrival_time := 1, departure_time := 0, axles := 2 }]
                 is_busy := true
                 current_vehicle := some { id := 1, arrival_time := 0, departure_time := 0, axles := 2 } }]
    simulation_time := 1
    event_queue := [Event.finish 4 0, Event.arrival 100]
    vehicles_processed := 0
    total_wait_time := 0
    next_vehicle_id := 2
    avg_arrival_interval := 18
    gapIdx := 3 }

/-- After the finish at time 4: vehicle 1 done (wait 4), next start queued. -/
def sc4 : TollPlaza :=
  { booths := [{ id := 0
                 vehicle_queue := [{ id := 2, arrival_time := 1, departure_time := 0, axles := 2 }]
                 is_busy := false
                 current_vehicle := none }]
    simulation_time := 4
    event_queue := [Event.arrival 100, Event.start 4 0]
    vehicles_processed := 1
    total_wait_time := 4
    next_vehicle_id := 2
    avg_arrival_interval := 18
    gapIdx := 3 }

/-- After the start at time 4: vehicle 2 in service, finish scheduled at 8. -/
def sc5 : TollPlaza :=
  { booths := [{ id := 0
                 vehicle_queue := []
                 is_busy := true
                 current_vehicle := some { id := 2, arrival_time := 1, departure_time := 0, axles := 2 } }]
    simulation_time := 4
    event_queue := [Event.arrival 100, Event.finish 8 0]
    vehicles_processed := 1
    total_wait_time := 4
    next_vehicle_id := 2
    avg_arrival_interval := 18
    gapIdx := 3 }

/-- After the finish at time 8: vehicle 2 done (wait 7), booth idle. -/
def sc6 : TollPlaza :=
  { booths := [{ id := 0, vehicle_queue := [], is_busy := false, current_vehicle := none }]
    simulation_time := 8
    event_queue := [Event.arrival 100]
    vehicles_processed := 2
    total_wait_time := 11
    next_vehicle_id := 2
    avg_arrival_interval := 18
    gapIdx := 3 }

/-- After the arrival at time 100: vehicle 3 queued at the idle booth. -/
def sc7 : TollPlaza :=
  { booths := [{ id := 0
                 vehicle_queue := [{ id := 3, arrival_time := 100, departure_time := 0, axles := 2 }]
                 is_busy := false
                 current_vehicle := none }]
    simulation_time := 100
    event_queue := [Event.start 100 0, Event.arrival 1100]
    vehicles_processed := 2
    total_wait_time := 11
    next_vehicle_id := 3
    avg_arrival_interval := 18
    gapIdx := 4 }

/-- After the start at time 100: vehicle 3 in service, finish scheduled at
104. -/
def sc8 : TollPlaza :=
  { booths := [{ id := 0
                 vehicle_queue := []
                 is_busy := true
                 current_vehicle := some { id := 3, arrival_time := 100, departure_time := 0, axles := 2 } }]
    simulation_time := 100
    event_queue := [Event.arrival 1100, Event.finish 104 0]
    vehicles_processed := 2
    total_wait_time := 11
    next_vehicle_id := 3
    avg_arrival_interval := 18
    gapIdx := 4 }

/-- After the finish at time 104: vehicle 3 done (wait 4); only the arrival at
1100 is left and the clock has reached the bound. -/
def sc9 : TollPlaza :=
  { booths := [{ id := 0, vehicle_queue := [], is_busy := false, current_vehicle := none }]
    simulation_time := 104
    event_queue := [Event.arrival 1100]
    vehicles_processed := 3
    total_wait_time := 15
    next_vehicle_id := 3
    avg_arrival_interval := 18
    gapIdx := 4 }

lemma sc_init : schedule_vehicle_arrival g104 (mkPlaza 1 18) = sc0 := by
  norm_num [schedule_vehicle_arrival, mkPlaza, heappush, get_next_arrival_time,
    g104, sc0, List.range_succ]

lemma sc_step0 : stepSim g104 axs2 104 sc0 = .next sc1 (.arrivalEv 0 1 0) := by
  norm_num [stepSim, sc0, sc1, popMin, evLE, heappush, minBoothAux,
    TollBooth.add_vehicle, TollBooth.get_queue_length, Event.time, Event.rank,
    Event.boothId, g104, axs2]
  all_goals exact fun h => absurd h (List.cons_ne_nil _ _)

lemma sc_step1 : stepSim g104 axs2 104 sc1 = .next sc2 (.startEv 0 0 1) := by
  norm_num [stepSim, sc1, sc2, popMin, evLE, heappush, minBoothAux,
    TollBooth.add_vehicle, TollBooth.get_queue_length, Event.time, Event.rank,
    Event.boothId, g104, axs2]
  all_goals exact fun h => absurd h (List.cons_ne_nil _ _)

lemma sc_step2 : stepSim g104 axs2 104 sc2 = .next sc3 (.arrivalEv 1 2 0) := by
  norm_num [stepSim, sc2, sc3, popMin, evLE, heappush, minBoothAux,
    TollBooth.add_vehicle, TollBooth.get_queue_length, Event.time, Event.rank,
    Event.boothId, g104, axs2]
  all_goals exact fun h => absurd h (List.cons_ne_nil _ _)

lemma sc_step3 : stepSim g104 axs2 104 sc3 = .next sc4 (.finishEv 4 0 1 4) := by
  norm_num [stepSim, sc3, sc4, popMin, evLE, heappush, minBoothAux,
    TollBooth.add_vehicle, TollBooth.get_queue_length, Event.time, Event.rank,
    Event.boothId, g104, axs2]
  all_goals exact fun h => absurd h (List.cons_ne_nil _ _)

lemma sc_step4 : stepSim g104 axs2 104 sc4 = .next sc5 (.startEv 4 0 2) := by
  norm_num [stepSim, sc4, sc5, popMin, evLE, heappush, minBoothAux,
    TollBooth.add_vehicle, TollBooth.get_queue_length, Event.time, Event.rank,
    Event.boothId, g104, axs2]
  all_goals exact fun h => absurd h (List.cons_ne_nil _ _)

lemma sc_step5 : stepSim g104 axs2 104 sc5 = .next sc6 (.finishEv 8 0 2 7) := by
  norm_num [stepSim, sc5, sc6, popMin, evLE, heappush, minBoothAux,
    TollBooth.add_vehicle, TollBooth.get_queue_length, Event.time, Event.rank,
    Event.boothId, g104, axs2]
  all_goals exact fun h => absurd h (List.cons_ne_nil _ _)

lemma sc_step6 : stepSim g104 axs2 104 sc6 = .next sc7 (.arrivalEv 100 3 0) := by
  norm_num [stepSim, sc6, sc7, popMin, evLE, heappush, minBoothAux,
    TollBooth.add_vehicle, TollBooth.get_queue_length, Event.time, Event.rank,
    Event.boothId, g104, axs2]
  all_goals exact fun h => absurd h (List.cons_ne_nil _ _)

lemma sc_step7 : stepSim g104 axs2 104 sc7 = .next sc8 (.startEv 100 0 3) := by
  norm_num [stepSim, sc7, sc8, popMin, evLE, heappush, minBoothAux,
    TollBooth.add_vehicle, TollBooth.get_queue_length, Event.time, Event.rank,
    Event.boothId, g104, axs2]
  all_goals exact fun h => absurd h (List.cons_ne_nil _ _)

lemma sc_step8 : stepSim g104 axs2 104 sc8 = .next sc9 (.finishEv 104 0 3 4) := by
  norm_num [stepSim, sc8, sc9, popMin, evLE, heappush, minBoothAux,
    TollBooth.add_vehicle, TollBooth.get_queue_length, Event.time, Event.rank,
    Event.boothId, g104, axs2]
  all_goals exact fun h => absurd h (List.cons_ne_nil _ _)

lemma sc_step9 : stepSim g104 axs2 104 sc9 = .done := by
  norm_num [stepSim, sc9]

lemma sc_run :
    run_simulation g104 axs2 104 10 (mkPlaza 1 18) =
      (sc9,
       [TraceEv.arrivalEv 0 1 0, TraceEv.startEv 0 0 1, TraceEv.arrivalEv 1 2 0,
        TraceEv.finishEv 4 0 1 4, TraceEv.startEv 4 0 2, TraceEv.finishEv 8 0 2 7,
        TraceEv.arrivalEv 100 3 0, TraceEv.startEv 100 0 3, TraceEv.finishEv 104 0 3 4],
       RunStatus.finished) := by
  simp only [run_simulation, sc_init, runAux, sc_step0, sc_step1, sc_step2,
    sc_step3, sc_step4, sc_step5, sc_step6, sc_step7, sc_step8, sc_step9]

/-- C1.  Single booth, forced arrivals at 0, 1, 100, every vehicle with 2
axles (4-second service): the loop handles — vehicle 1 arrives at 0, starts
service at 0, finishes at 4 with wait 4; vehicle 2 arrives at 1, queues,
starts at 4, finishes at 8 with wait 7; vehicle 3 arrives at 100, starts at
100, finishes at 104 with wait 4; the final statistics report 3 vehicles
processed, average wait `(4+7+4)/3 = 5`, and 0 vehicles remaining in queues. -/
theorem scenario_single_booth_forced_arrivals :
    (run_simulation g104 axs2 104 10 (mkPlaza 1 18)).2.1 =
      [TraceEv.arrivalEv 0 1 0, TraceEv.startEv 0 0 1, TraceEv.arrivalEv 1 2 0,
       TraceEv.finishEv 4 0 1 4, TraceEv.startEv 4 0 2, TraceEv.finishEv 8 0 2 7,
       TraceEv.arrivalEv 100 3 0, TraceEv.startEv 100 0 3, TraceEv.finishEv 104 0 3 4] ∧
    print_statistics (run_simulation g104 axs2 104 10 (mkPlaza 1 18)).1 =
      { vehicles_processed := 3, average_wait_time := some 5, remaining_queued := 0 } ∧
    (run_simulation g104 axs2 104 10 (mkPlaza 1 18)).2.2 = RunStatus.finished := by
  rw [sc_run]
  refine ⟨rfl, ?_, rfl⟩
  norm_num [print_statistics, sc9, TollBooth.get_queue_length]

/-! ### Order and extraction properties of the heap model -/

lemma evLE_refl (a : Event) : evLE a a := Or.inr ⟨rfl, Or.inr ⟨rfl, le_refl _⟩⟩

lemma evLE_time_le {a b : Event} (h : evLE a b) : a.time ≤ b.time := by
  rcases h with h | ⟨h, _⟩
  · exact le_of_lt h
  · exact le_of_eq h

lemma evLE_total (a b : Event) : evLE a b ∨ evLE b a := by
  unfold evLE
  rcases lt_trichotomy a.time b.time with h | h | h
  · exact Or.inl (Or.inl h)
  · rcases Nat.lt_trichotomy a.rank b.rank with h2 | h2 | h2
    · exact Or.inl (Or.inr ⟨h, Or.inl h2⟩)
    · rcases Nat.le_total a.boothId b.boothId with h3 | h3
      · exact Or.inl (Or.inr ⟨h, Or.inr ⟨h2, h3⟩⟩)
      · exact Or.inr (Or.inr ⟨h.symm, Or.inr ⟨h2.symm, h3⟩⟩)
    · exact Or.inr (Or.inr ⟨h.symm, Or.inl h2⟩)
  · exact Or.inr (Or.inl h)

lemma evLE_trans {a b c : Event} (h1 : evLE a b) (h2 : evLE b c) : evLE a c := by
  rcases h1 with h1 | ⟨e1, h1⟩
  · rcases h2 with h2 | ⟨e2, _⟩
    · exact Or.inl (lt_trans h1 h2)
    · exact Or.inl (e2 ▸ h1)
  · rcases h2 with h2 | ⟨e2, h2⟩
    · exact Or.inl (e1 ▸ h2)
    · refine Or.inr ⟨e1.trans e2, ?_⟩
      rcases h1 with h1 | ⟨r1, h1⟩
      · rcases h2 with h2 | ⟨r2, _⟩
        · exact Or.inl (lt_trans h1 h2)
        · exact Or.inl (r2 ▸ h1)
      · rcases h2 with h2 | ⟨r2, h2⟩
        · exact Or.inl (r1 ▸ h2)
        · exact Or.inr ⟨r1.trans r2, le_trans h1 h2⟩

lemma popMin_none_iff {q : List Event} : popMin q = none ↔ q = [] := by
  cases q with
  | nil => simp [popMin]
  | cons e es =>
    simp only [popMin]
    constructor
    · intro h
      rcases h2 : popMin es with _ | p
      · rw [h2] at h; cases h
      · rw [h2] at h
        rcases p with ⟨m, rest⟩
        by_cases hle : evLE e m <;> simp [hle] at h
    · intro h; cases h

lemma popMin_perm {q : List Event} {e : Event} {rest : List Event}
    (h : popMin q = some (e, rest)) : q.Perm (e :: rest) := by
  induction q generalizing e rest with
  | nil => cases h
  | cons a as ih =>
    simp only [popMin] at h
    rcases h2 : popMin as with _ | ⟨m, r⟩
    · rw [h2] at h
      rw [popMin_none_iff.mp h2] at *
      cases h
      exact List.Perm.refl _
    · rw [h2] at h
      dsimp only at h
      by_cases hle : evLE a m
      · rw [if_pos hle] at h
        simp only [Option.some.injEq, Prod.mk.injEq] at h
        obtain ⟨rfl, rfl⟩ := h
        exact List.Perm.refl _
      · rw [if_neg hle] at h
        simp only [Option.some.injEq, Prod.mk.injEq] at h
        obtain ⟨rfl, rfl⟩ := h
        exact ((ih h2).cons a).trans (List.Perm.swap m a r)

lemma popMin_mem {q : List Event} {e : Event} {rest : List Event}
    (h : popMin q = some (e, rest)) : e ∈ q :=
  (popMin_perm h).symm.subset (List.mem_cons_self e rest)

lemma popMin_min {q : List Event} {e : Event} {rest : List Event}
    (h : popMin q = some (e, rest)) : ∀ x ∈ q, evLE e x := by
  induction q generalizing e rest with
  | nil => cases h
  | cons a as ih =>
    simp only [popMin] at h
    rcases h2 : popMin as with _ | ⟨m, r⟩
    · rw [h2] at h
      rw [popMin_none_iff.mp h2] at *
      cases h
      intro x hx
      rcases List.mem_singleton.mp hx with rfl
      exact evLE_refl _
    · rw [h2] at h
      dsimp only at h
      by_cases hle : evLE a m
      · rw [if_pos hle] at h
        simp only [Option.some.injEq, Prod.mk.injEq] at h
        obtain ⟨rfl, rfl⟩ := h
        intro x hx
        rcases List.mem_cons.mp hx with rfl | hx
        · exact evLE_refl _
        · exact evLE_trans hle (ih h2 x hx)
      · rw [if_neg hle] at h
        simp only [Option.some.injEq, Prod.mk.injEq] at h
        obtain ⟨rfl, rfl⟩ := h
        intro x hx
        rcases List.mem_cons.mp hx with rfl | hx
        · rcases evLE_total x m with h3 | h3
          · exact absurd h3 hle
          · exact h3
        · exact ih h2 x hx

lemma popMin_countP {q : List Event} {e : Event} {rest : List Event}
    (h : popMin q = some (e, rest)) (p : Event → Bool) :
    q.countP p = rest.countP p + if p e then 1 else 0 :=
  ((popMin_perm h).countP_eq p).trans (List.countP_cons p e rest)

lemma popMin_rest_subset {q : List Event} {e : Event} {rest : List Event}
    (h : popMin q = some (e, rest)) : ∀ x ∈ rest, x ∈ q := by
  intro x hx
  exact (popMin_perm h).symm.subset (List.mem_cons_of_mem e hx)

lemma heappush_countP (q : List Event) (e : Event) (p : Event → Bool) :
    (heappush q e).countP p = q.countP p + if p e then 1 else 0 := by
  simp [heappush, List.countP_append, List.countP_cons]

lemma mem_heappush {q : List Event} {e x : Event} :
    x ∈ heappush q e ↔ x ∈ q ∨ x = e := by
  simp [heappush]

/-! ### Pending-event counters used by the loop invariant -/

/-- Test for a pending `START_PROCESSING` event of booth `i`. -/
def isStartFor (i : ℕ) : Event → Bool
  | .start _ b => b == i
  | _ => false

/-- Test for a pending `FINISH_PROCESSING` event of booth `i`. -/
def isFinishFor (i : ℕ) : Event → Bool
  | .finish _ b => b == i
  | _ => false

/-- Number of pending start events of booth `i`. -/
def countStart (q : List Event) (i : ℕ) : ℕ := q.countP (isStartFor i)

/-- Number of pending finish events of booth `i`. -/
def countFinish (q : List Event) (i : ℕ) : ℕ := q.countP (isFinishFor i)

lemma countStart_pos_of_mem {q : List Event} {t : ℚ} {i : ℕ}
    (h : Event.start t i ∈ q) : 0 < countStart q i := by
  refine List.countP_pos.mpr ⟨_, h, ?_⟩
  simp [isStartFor]

lemma countFinish_pos_of_mem {q : List Event} {t : ℚ} {i : ℕ}
    (h : Event.finish t i ∈ q) : 0 < countFinish q i := by
  refine List.countP_pos.mpr ⟨_, h, ?_⟩
  simp [isFinishFor]

lemma start_mem_of_countStart_pos {q : List Event} {i : ℕ}
    (h : 0 < countStart q i) : ∃ t, Event.start t i ∈ q := by
  rcases List.countP_pos.mp h with ⟨e, he, hp⟩
  cases e with
  | start t b =>
    simp [isStartFor] at hp
    exact ⟨t, hp ▸ he⟩
  | arrival t => simp [isStartFor] at hp
  | finish t b => simp [isStartFor] at hp

/-! ### The loop invariant -/

/-- Invariant of every state reachable by the event loop (given non-negative
arrival gaps): booth ids coincide with their positions, the busy flag tracks
the in-service vehicle, per booth there is exactly one pending finish event
when busy and none otherwise, at most one pending start event and none while
busy, all pending events lie at or after the clock, pending start events are
scheduled exactly at the clock, vehicles waiting or in service still carry the
initial `departure_time = 0` and arrived no later than the clock, and the
generated-vehicle counter balances the processed counter, the queue lengths
and the busy flags. -/
structure WF (st : TollPlaza) : Prop where
  ids : ∀ i b, st.booths.get? i = some b → b.id = i
  busy_iff : ∀ b ∈ st.booths, b.is_busy = b.current_vehicle.isSome
  finish_cnt : ∀ i b, st.booths.get? i = some b →
    countFinish st.event_queue i = if b.is_busy then 1 else 0
  start_valid : ∀ t i, Event.start t i ∈ st.event_queue → i < st.booths.length
  finish_valid : ∀ t i, Event.finish t i ∈ st.event_queue → i < st.booths.length
  start_busy : ∀ i b, st.booths.get? i = some b → b.is_busy = true →
    countStart st.event_queue i = 0
  start_one : ∀ i, countStart st.event_queue i ≤ 1
  time_ge : ∀ e ∈ st.event_queue, st.simulation_time ≤ e.time
  start_le : ∀ t i, Event.start t i ∈ st.event_queue → t ≤ st.simulation_time
  veh_q : ∀ b ∈ st.booths, ∀ v ∈ b.vehicle_queue,
    v.departure_time = 0 ∧ v.arrival_time ≤ st.simulation_time
  veh_cur : ∀ b ∈ st.booths, ∀ v, b.current_vehicle = some v →
    v.departure_time = 0 ∧ v.arrival_time ≤ st.simulation_time
  conserve : st.next_vehicle_id =
    st.vehicles_processed + (st.booths.map fun b => b.vehicle_queue.length).sum +
      (st.booths.map fun b => if b.is_busy then 1 else 0).sum

lemma lt_length_of_get?_some {α : Type} {l : List α} {i : ℕ} {x : α}
    (h : l.get? i = some x) : i < l.length := by
  by_contra hc
  rw [List.get?_eq_none.mpr (le_of_not_lt hc)] at h
  cases h

lemma mem_of_get?_some {α : Type} {l : List α} {i : ℕ} {x : α}
    (h : l.get? i = some x) : x ∈ l := List.get?_mem h

lemma get?_set_cases {l : List TollBooth} {i j : ℕ} {x b : TollBooth}
    (hi : i < l.length) (h : (l.set i x).get? j = some b) :
    (j = i ∧ b = x) ∨ (j ≠ i ∧ l.get? j = some b) := by
  by_cases hji : j = i
  · subst hji
    rw [List.get?_set_eq_of_lt x hi] at h
    exact Or.inl ⟨rfl, (Option.some_inj.mp h).symm⟩
  · exact Or.inr ⟨hji, by rwa [List.get?_set_ne x l (fun hh => hji hh.symm)] at h⟩

lemma sum_map_set {α : Type} (l : List α) (f : α → ℕ) :
    ∀ (i : ℕ) (x b : α), l.get? i = some b →
      ((l.set i x).map f).sum + f b = (l.map f).sum + f x := by
  induction l with
  | nil => intro i x b h; cases h
  | cons a as ih =>
    intro i x b h
    cases i with
    | zero =>
      simp only [List.get?] at h
      cases h
      simp only [List.set, List.map, List.sum_cons]
      omega
    | succ n =>
      simp only [List.get?] at h
      have := ih n x b h
      simp only [List.set, List.map, List.sum_cons]
      omega

lemma countStart_heappush_start (q : List Event) (t : ℚ) (j i : ℕ) :
    countStart (heappush q (.start t j)) i =
      countStart q i + if j = i then 1 else 0 := by
  by_cases hj : j = i <;> simp [countStart, heappush_countP, isStartFor, hj]

lemma countStart_heappush_arrival (q : List Event) (t : ℚ) (i : ℕ) :
    countStart (heappush q (.arrival t)) i = countStart q i := by
  simp [countStart, heappush_countP, isStartFor]

lemma countStart_heappush_finish (q : List Event) (t : ℚ) (j i : ℕ) :
    countStart (heappush q (.finish t j)) i = countStart q i := by
  simp [countStart, heappush_countP, isStartFor]

lemma countFinish_heappush_finish (q : List Event) (t : ℚ) (j i : ℕ) :
    countFinish (heappush q (.finish t j)) i =
      countFinish q i + if j = i then 1 else 0 := by
  by_cases hj : j = i <;> simp [countFinish, heappush_countP, isFinishFor, hj]

lemma countFinish_heappush_arrival (q : List Event) (t : ℚ) (i : ℕ) :
    countFinish (heappush q (.arrival t)) i = countFinish q i := by
  simp [countFinish, heappush_countP, isFinishFor]

lemma countFinish_heappush_start (q : List Event) (t : ℚ) (j i : ℕ) :
    countFinish (heappush q (.start t j)) i = countFinish q i := by
  simp [countFinish, heappush_countP, isFinishFor]

lemma countStart_pop_arrival {q rest : List Event} {t : ℚ}
    (h : popMin q = some (.arrival t, rest)) (i : ℕ) :
    countStart q i = countStart rest i := by
  have := popMin_countP h (isStartFor i)
  simpa [countStart, isStartFor] using this

lemma countFinish_pop_arrival {q rest : List Event} {t : ℚ}
    (h : popMin q = some (.arrival t, rest)) (i : ℕ) :
    countFinish q i = countFinish rest i := by
  have := popMin_countP h (isFinishFor i)
  simpa [countFinish, isFinishFor] using this

lemma countStart_pop_start {q rest : List Event} {t : ℚ} {j : ℕ}
    (h : popMin q = some (.start t j, rest)) (i : ℕ) :
    countStart q i = countStart rest i + if j = i then 1 else 0 := by
  have := popMin_countP h (isStartFor i)
  by_cases hj : j = i <;> simpa [countStart, isStartFor, hj] using this

lemma countFinish_pop_start {q rest : List Event} {t : ℚ} {j : ℕ}
    (h : popMin q = some (.start t j, rest)) (i : ℕ) :
    countFinish q i = countFinish rest i := by
  have := popMin_countP h (isFinishFor i)
  simpa [countFinish, isFinishFor] using this

lemma countStart_pop_finish {q rest : List Event} {t : ℚ} {j : ℕ}
    (h : popMin q = some (.finish t j, rest)) (i : ℕ) :
    countStart q i = countStart rest i := by
  have := popMin_countP h (isStartFor i)
  simpa [countStart, isStartFor] using this

lemma countFinish_pop_finish {q rest : List Event} {t : ℚ} {j : ℕ}
    (h : popMin q = some (.finish t j, rest)) (i : ℕ) :
    countFinish q i = countFinish rest i + if j = i then 1 else 0 := by
  have := popMin_countP h (isFinishFor i)
  by_cases hj : j = i <;> simpa [countFinish, isFinishFor, hj] using this

/-- When an `ARRIVAL` event is popped, no start event can be pending at all:
pending starts sit exactly at the clock, and at equal times
`"START_PROCESSING" < "VEHICLE_ARRIVAL"`, so the heap would have yielded the
start first. -/
lemma no_start_of_arrival_popped {st : TollPlaza} (hwf : WF st) {t : ℚ}
    {rest : List Event} (hpop : popMin st.event_queue = some (.arrival t, rest)) :
    ∀ t2 i, Event.start t2 i ∉ st.event_queue := by
  intro t2 i hmem2
  have h1 : t2 ≤ st.simulation_time := hwf.start_le t2 i hmem2
  have h2 : st.simulation_time ≤ (Event.start t2 i).time := hwf.time_ge _ hmem2
  have ht : st.simulation_time ≤ (Event.arrival t).time := hwf.time_ge _ (popMin_mem hpop)
  have hle := popMin_min hpop _ hmem2
  simp only [Event.time] at h2 ht
  rcases hle with hlt | ⟨heq, hr⟩
  · simp only [Event.time] at hlt
    linarith
  · rcases hr with hr | ⟨hr, _⟩
    · simp [Event.rank] at hr
    · simp [Event.rank] at hr

lemma countStart_zero_of_arrival_popped {st : TollPlaza} (hwf : WF st) {t : ℚ}
    {rest : List Event} (hpop : popMin st.event_queue = some (.arrival t, rest)) :
    ∀ i, countStart st.event_queue i = 0 := by
  intro i
  by_contra hc
  rcases start_mem_of_countStart_pos (Nat.pos_of_ne_zero hc) with ⟨t2, hmem⟩
  exact no_start_of_arrival_popped hwf hpop t2 i hmem

lemma minBoothAux_get : ∀ {bs : List TollBooth} {i : ℕ} {b : TollBooth},
    minBoothAux bs = some (i, b) → bs.get? i = some b := by
  intro bs
  induction bs with
  | nil => intro i b h; cases h
  | cons a as ih =>
    intro i b h
    simp only [minBoothAux] at h
    rcases h2 : minBoothAux as with _ | ⟨j, m⟩
    · rw [h2] at h
      dsimp only at h
      simp only [Option.some.injEq, Prod.mk.injEq] at h
      obtain ⟨rfl, rfl⟩ := h
      rfl
    · rw [h2] at h
      dsimp only at h
      by_cases hle : a.get_queue_length ≤ m.get_queue_length
      · rw [if_pos hle] at h
        simp only [Option.some.injEq, Prod.mk.injEq] at h
        obtain ⟨rfl, rfl⟩ := h
        rfl
      · rw [if_neg hle] at h
        simp only [Option.some.injEq, Prod.mk.injEq] at h
        obtain ⟨rfl, rfl⟩ := h
        simpa using ih h2

lemma mkPlaza_get? {nb : ℕ} {itv : ℚ} {i : ℕ} {b : TollBooth}
    (h : (mkPlaza nb itv).booths.get? i = some b) :
    b = { id := i, vehicle_queue := [], is_busy := false, current_vehicle := none } := by
  simp only [mkPlaza, List.get?_map] at h
  rcases Option.map_eq_some'.mp h with ⟨a, ha, hb⟩
  have hi : i < nb := by
    have := lt_length_of_get?_some ha
    simpa using this
  rw [List.get?_range hi] at ha
  cases ha
  exact hb.symm

lemma mkPlaza_mem {nb : ℕ} {itv : ℚ} {b : TollBooth}
    (h : b ∈ (mkPlaza nb itv).booths) :
    b.vehicle_queue = [] ∧ b.is_busy = false ∧ b.current_vehicle = none := by
  simp only [mkPlaza, List.mem_map] at h
  rcases h with ⟨i, _, rfl⟩
  exact ⟨rfl, rfl, rfl⟩

/-- The state at the top of the loop — fresh plaza with the very first arrival
scheduled — satisfies the invariant. -/
lemma WF_start (gaps : ℕ → ℚ) (nb : ℕ) (itv : ℚ) (hg : ∀ n, 0 ≤ gaps n) :
    WF (schedule_vehicle_arrival gaps (mkPlaza nb itv)) := by
  constructor
  · intro i b h
    simp only [schedule_vehicle_arrival] at h
    exact congrArg TollBooth.id (mkPlaza_get? h) |>.trans rfl
  · intro b hb
    simp only [schedule_vehicle_arrival] at hb
    rcases mkPlaza_mem hb with ⟨_, h2, h3⟩
    rw [h2, h3]
    rfl
  · intro i b h
    simp only [schedule_vehicle_arrival] at h
    rw [mkPlaza_get? h]
    simp [schedule_vehicle_arrival, mkPlaza, countFinish, heappush,
      get_next_arrival_time, List.countP_cons, List.countP_nil, isFinishFor]
  · intro t i h
    simp only [schedule_vehicle_arrival, mkPlaza, heappush, get_next_arrival_time] at h
    simp at h
  · intro t i h
    simp only [schedule_vehicle_arrival, mkPlaza, heappush, get_next_arrival_time] at h
    simp at h
  · intro i b h h2
    simp only [schedule_vehicle_arrival] at h
    rw [mkPlaza_get? h] at h2
    cases h2
  · intro i
    simp [schedule_vehicle_arrival, mkPlaza, countStart, heappush,
      get_next_arrival_time, List.countP_cons, List.countP_nil, isStartFor]
  · intro e he
    simp only [schedule_vehicle_arrival, mkPlaza, heappush, get_next_arrival_time] at he ⊢
    simp at he
    rw [he]
    simp only [Event.time]
    have := hg 0
    simp
    linarith
  · intro t i h
    simp only [schedule_vehicle_arrival, mkPlaza, heappush, get_next_arrival_time] at h
    simp at h
  · intro b hb
    simp only [schedule_vehicle_arrival] at hb
    rcases mkPlaza_mem hb with ⟨h1, _, _⟩
    rw [h1]
    intro v hv
    cases hv
  · intro b hb
    simp only [schedule_vehicle_arrival] at hb
    rcases mkPlaza_mem hb with ⟨_, _, h3⟩
    rw [h3]
    intro v hv
    cases hv
  · have h1 : ∀ l : List ℕ, (l.map fun _ => (0 : ℕ)).sum = 0 := by
      intro l; induction l <;> simp [*]
    simp [schedule_vehicle_arrival, mkPlaza, List.map_map, Function.comp_def, h1]

/-- Invariant preservation, `VEHICLE_ARRIVAL` branch. -/
lemma WF_step_arrival {st : TollPlaza} {gaps : ℕ → ℚ} (hg : ∀ n, 0 ≤ gaps n)
    (hwf : WF st) {t : ℚ} {rest : List Event} {bi : ℕ} {b : TollBooth} (ax : ℕ)
    (hpop : popMin st.event_queue = some (.arrival t, rest))
    (hmb : minBoothAux st.booths = some (bi, b)) :
    WF { st with
          simulation_time := t
          booths := st.booths.set bi (b.add_vehicle
            { id := st.next_vehicle_id + 1, arrival_time := t,
              departure_time := 0, axles := ax })
          event_queue := heappush (if b.is_busy then rest else heappush rest (.start t b.id))
            (.arrival (t + gaps st.gapIdx))
          next_vehicle_id := st.next_vehicle_id + 1
          gapIdx := st.gapIdx + 1 } := by
  have hbg := minBoothAux_get hmb
  have hbl : bi < st.booths.length := lt_length_of_get?_some hbg
  have hbid : b.id = bi := hwf.ids bi b hbg
  have hbmem : b ∈ st.booths := mem_of_get?_some hbg
  have hnt : st.simulation_time ≤ t := by
    simpa [Event.time] using hwf.time_ge _ (popMin_mem hpop)
  have hns := countStart_zero_of_arrival_popped hwf hpop
  have hrs : ∀ i, countStart rest i = 0 := by
    intro i
    have h2 := countStart_pop_arrival hpop i
    have h3 := hns i
    omega
  have hrf : ∀ i, countFinish rest i = countFinish st.event_queue i :=
    fun i => (countFinish_pop_arrival hpop i).symm
  have hmemr := popMin_rest_subset hpop
  have htr : ∀ x ∈ rest, t ≤ x.time := by
    intro x hx
    simpa [Event.time] using evLE_time_le (popMin_min hpop x (hmemr x hx))
  set v : Vehicle :=
    { id := st.next_vehicle_id + 1, arrival_time := t, departure_time := 0, axles := ax }
    with hv
  set qmid := if b.is_busy then rest else heappush rest (.start t b.id) with hqmid
  have hqmidS : ∀ i, countStart qmid i =
      if b.is_busy = false ∧ i = bi then 1 else 0 := by
    intro i
    by_cases hbb : b.is_busy = true
    · rw [hqmid, if_pos hbb, hrs i]
      have h4 : ¬ (b.is_busy = false ∧ i = bi) := by rw [hbb]; simp
      rw [if_neg h4]
    · have hbf : b.is_busy = false := by revert hbb; cases b.is_busy <;> simp
      rw [hqmid, if_neg hbb, countStart_heappush_start, hrs i, hbid]
      by_cases hi : i = bi
      · subst hi; simp [hbf]
      · have hi2 : ¬ bi = i := fun hh => hi hh.symm
        simp [hbf, hi, hi2]
  have hqmidF : ∀ i, countFinish qmid i = countFinish st.event_queue i := by
    intro i
    by_cases hbb : b.is_busy = true
    · rw [hqmid, if_pos hbb, hrf i]
    · rw [hqmid, if_neg hbb, countFinish_heappush_start, hrf i]
  have hqmid_mem : ∀ x ∈ qmid, x ∈ rest ∨ x = Event.start t bi := by
    intro x hx
    rw [hqmid] at hx
    by_cases hbb : b.is_busy = true
    · rw [if_pos hbb] at hx
      exact Or.inl hx
    · rw [if_neg hbb] at hx
      rcases mem_heappush.mp hx with h3 | h3
      · exact Or.inl h3
      · exact Or.inr (by rw [h3, hbid])
  have hqmid_time : ∀ x ∈ qmid, t ≤ x.time := by
    intro x hx
    rcases hqmid_mem x hx with h3 | h3
    · exact htr x h3
    · rw [h3]; simp [Event.time]
  have hqmid_start : ∀ t2 i, Event.start t2 i ∈ qmid → t2 = t ∧ i = bi := by
    intro t2 i hx
    rcases hqmid_mem _ hx with h3 | h3
    · exact absurd (hmemr _ h3) (no_start_of_arrival_popped hwf hpop t2 i)
    · cases h3; exact ⟨rfl, rfl⟩
  refine { ids := ?_, busy_iff := ?_, finish_cnt := ?_, start_valid := ?_,
           finish_valid := ?_, start_busy := ?_, start_one := ?_, time_ge := ?_,
           start_le := ?_, veh_q := ?_, veh_cur := ?_, conserve := ?_ }
  · -- ids
    intro i bb hgt
    dsimp only at hgt
    rcases get?_set_cases hbl hgt with ⟨rfl, rfl⟩ | ⟨_, hgt2⟩
    · simpa [TollBooth.add_vehicle] using hbid
    · exact hwf.ids _ _ hgt2
  · -- busy_iff
    intro bb hbb
    dsimp only at hbb
    rcases List.mem_or_eq_of_mem_set hbb with h3 | rfl
    · exact hwf.busy_iff bb h3
    · simpa [TollBooth.add_vehicle] using hwf.busy_iff b hbmem
  · -- finish_cnt
    intro i bb hgt
    dsimp only at hgt ⊢
    rw [countFinish_heappush_arrival, hqmidF]
    rcases get?_set_cases hbl hgt with ⟨rfl, rfl⟩ | ⟨_, hgt2⟩
    · simpa [TollBooth.add_vehicle] using hwf.finish_cnt _ b hbg
    · exact hwf.finish_cnt i bb hgt2
  · -- start_valid
    intro t2 i hx
    dsimp only at hx ⊢
    rw [List.length_set]
    rcases mem_heappush.mp hx with h3 | h3
    · rcases hqmid_start t2 i h3 with ⟨_, rfl⟩
      exact hbl
    · cases h3
  · -- finish_valid
    intro t2 i hx
    dsimp only at hx ⊢
    rw [List.length_set]
    rcases mem_heappush.mp hx with h3 | h3
    · rcases hqmid_mem _ h3 with h4 | h4
      · exact hwf.finish_valid t2 i (hmemr _ h4)
      · cases h4
    · cases h3
  · -- start_busy
    intro i bb hgt hbusy2
    dsimp only at hgt ⊢
    rw [countStart_heappush_arrival, hqmidS]
    rcases get?_set_cases hbl hgt with ⟨rfl, rfl⟩ | ⟨hne, hgt2⟩
    · have : b.is_busy = true := by
        simpa [TollBooth.add_vehicle] using hbusy2
      simp [this]
    · simp [hne]
  · -- start_one
    intro i
    dsimp only
    rw [countStart_heappush_arrival, hqmidS]
    split <;> omega
  · -- time_ge
    intro x hx
    dsimp only at hx ⊢
    rcases mem_heappush.mp hx with h3 | h3
    · exact hqmid_time x h3
    · rw [h3]
      simp only [Event.time]
      have := hg st.gapIdx
      linarith
  · -- start_le
    intro t2 i hx
    dsimp only at hx ⊢
    rcases mem_heappush.mp hx with h3 | h3
    · exact le_of_eq (hqmid_start t2 i h3).1
    · cases h3
  · -- veh_q
    intro bb hbb v2 hv2
    dsimp only at hbb ⊢
    rcases List.mem_or_eq_of_mem_set hbb with h3 | rfl
    · rcases hwf.veh_q bb h3 v2 hv2 with ⟨hd, ha⟩
      exact ⟨hd, le_trans ha hnt⟩
    · simp only [TollBooth.add_vehicle, List.mem_append] at hv2
      rcases hv2 with h4 | h4
      · rcases hwf.veh_q b hbmem v2 h4 with ⟨hd, ha⟩
        exact ⟨hd, le_trans ha hnt⟩
      · rcases List.mem_singleton.mp h4 with rfl
        exact ⟨rfl, le_refl _⟩
  · -- veh_cur
    intro bb hbb v2 hv2
    dsimp only at hbb ⊢
    rcases List.mem_or_eq_of_mem_set hbb with h3 | rfl
    · rcases hwf.veh_cur bb h3 v2 hv2 with ⟨hd, ha⟩
      exact ⟨hd, le_trans ha hnt⟩
    · simp only [TollBooth.add_vehicle] at hv2
      rcases hwf.veh_cur b hbmem v2 hv2 with ⟨hd, ha⟩
      exact ⟨hd, le_trans ha hnt⟩
  · -- conserve
    dsimp only
    have hSl := sum_map_set st.booths (fun bb => bb.vehicle_queue.length) bi
      (b.add_vehicle v) b hbg
    have hSb := sum_map_set st.booths (fun bb => if bb.is_busy then (1 : ℕ) else 0) bi
      (b.add_vehicle v) b hbg
    have hc := hwf.conserve
    simp only [TollBooth.add_vehicle, List.length_append, List.length_singleton]
      at hSl hSb ⊢
    omega

/-- Invariant preservation, `START_PROCESSING` with an empty booth queue: the
body does nothing beyond advancing the clock. -/
lemma WF_step_start_skip {st : TollPlaza} (hwf : WF st) {t : ℚ} {bi : ℕ}
    {rest : List Event}
    (hpop : popMin st.event_queue = some (.start t bi, rest)) :
    WF { st with simulation_time := t, event_queue := rest } := by
  have hmem := popMin_mem hpop
  have hnt : st.simulation_time ≤ t := by
    simpa [Event.time] using hwf.time_ge _ hmem
  have hmemr := popMin_rest_subset hpop
  have htr : ∀ x ∈ rest, t ≤ x.time := by
    intro x hx
    simpa [Event.time] using evLE_time_le (popMin_min hpop x (hmemr x hx))
  have hcs := countStart_pop_start hpop
  have hcf := countFinish_pop_start hpop
  refine { ids := ?_, busy_iff := ?_, finish_cnt := ?_, start_valid := ?_,
           finish_valid := ?_, start_busy := ?_, start_one := ?_, time_ge := ?_,
           start_le := ?_, veh_q := ?_, veh_cur := ?_, conserve := ?_ }
  · exact hwf.ids
  · exact hwf.busy_iff
  · intro i bb hgt
    dsimp only at hgt ⊢
    rw [← hcf i]
    exact hwf.finish_cnt i bb hgt
  · intro t2 i hx
    exact hwf.start_valid t2 i (hmemr _ hx)
  · intro t2 i hx
    exact hwf.finish_valid t2 i (hmemr _ hx)
  · intro i bb hgt hb2
    dsimp only at hgt ⊢
    have h1 := hwf.start_busy i bb hgt hb2
    have h2 := hcs i
    omega
  · intro i
    dsimp only
    have h1 := hwf.start_one i
    have h2 := hcs i
    omega
  · exact htr
  · intro t2 i hx
    dsimp only at hx ⊢
    exact le_trans (hwf.start_le t2 i (hmemr _ hx)) hnt
  · intro bb hbb v2 hv2
    dsimp only at hbb ⊢
    rcases hwf.veh_q bb hbb v2 hv2 with ⟨hd, ha⟩
    exact ⟨hd, le_trans ha hnt⟩
  · intro bb hbb v2 hv2
    dsimp only at hbb ⊢
    rcases hwf.veh_cur bb hbb v2 hv2 with ⟨hd, ha⟩
    exact ⟨hd, le_trans ha hnt⟩
  · exact hwf.conserve

/-- Invariant preservation, `START_PROCESSING` with a non-empty booth queue:
the head vehicle enters service and a finish event is scheduled. -/
lemma WF_step_start_run {st : TollPlaza} (hwf : WF st) {t : ℚ} {bi : ℕ}
    {rest : List Event} {b : TollBooth} {v : Vehicle} {vq : List Vehicle}
    (hpop : popMin st.event_queue = some (.start t bi, rest))
    (hb : st.booths.get? bi = some b) (hq : b.vehicle_queue = v :: vq) :
    WF { st with
          simulation_time := t
          booths := st.booths.set bi
            { b with is_busy := true, current_vehicle := some v, vehicle_queue := vq }
          event_queue := heappush rest (.finish (t + (v.axles : ℚ) * 2) b.id) } := by
  have hmem := popMin_mem hpop
  have hnt : st.simulation_time ≤ t := by
    simpa [Event.time] using hwf.time_ge _ hmem
  have hmemr := popMin_rest_subset hpop
  have htr : ∀ x ∈ rest, t ≤ x.time := by
    intro x hx
    simpa [Event.time] using evLE_time_le (popMin_min hpop x (hmemr x hx))
  have hcs := countStart_pop_start hpop
  have hcf := countFinish_pop_start hpop
  have hbl : bi < st.booths.length := hwf.start_valid t bi hmem
  have hbid : b.id = bi := hwf.ids bi b hb
  have hbmem : b ∈ st.booths := mem_of_get?_some hb
  have hbusy : b.is_busy = false := by
    cases hbb : b.is_busy with
    | false => rfl
    | true =>
      have h1 := hwf.start_busy bi b hb hbb
      have h2 := countStart_pos_of_mem hmem
      omega
  have hrs_bi : countStart rest bi = 0 := by
    have h1 := hcs bi
    have h2 := hwf.start_one bi
    rw [if_pos rfl] at h1
    omega
  set b1 : TollBooth :=
    { b with is_busy := true, current_vehicle := some v, vehicle_queue := vq }
    with hb1
  refine { ids := ?_, busy_iff := ?_, finish_cnt := ?_, start_valid := ?_,
           finish_valid := ?_, start_busy := ?_, start_one := ?_, time_ge := ?_,
           start_le := ?_, veh_q := ?_, veh_cur := ?_, conserve := ?_ }
  · intro i bb hgt
    dsimp only at hgt
    rcases get?_set_cases hbl hgt with ⟨rfl, rfl⟩ | ⟨_, hgt2⟩
    · simpa [hb1] using hbid
    · exact hwf.ids _ _ hgt2
  · intro bb hbb
    dsimp only at hbb
    rcases List.mem_or_eq_of_mem_set hbb with h3 | rfl
    · exact hwf.busy_iff bb h3
    · rw [hb1]; rfl
  · intro i bb hgt
    dsimp only at hgt ⊢
    rw [countFinish_heappush_finish, ← hcf i]
    rcases get?_set_cases hbl hgt with ⟨rfl, rfl⟩ | ⟨hne, hgt2⟩
    · have h1 := hwf.finish_cnt _ b hb
      rw [hbusy] at h1
      rw [if_neg (by decide : ¬ (false = true))] at h1
      rw [h1, hbid]
      simp [hb1]
    · have h1 := hwf.finish_cnt i bb hgt2
      have h2 : ¬ b.id = i := by rw [hbid]; exact fun hh => hne hh.symm
      rw [if_neg h2, h1]
      omega
  · intro t2 i hx
    dsimp only at hx ⊢
    rw [List.length_set]
    rcases mem_heappush.mp hx with h3 | h3
    · exact hwf.start_valid t2 i (hmemr _ h3)
    · cases h3
  · intro t2 i hx
    dsimp only at hx ⊢
    rw [List.length_set]
    rcases mem_heappush.mp hx with h3 | h3
    · exact hwf.finish_valid t2 i (hmemr _ h3)
    · cases h3
      rw [hbid]
      exact hbl
  · intro i bb hgt hb2
    dsimp only at hgt ⊢
    rw [countStart_heappush_finish]
    rcases get?_set_cases hbl hgt with ⟨rfl, rfl⟩ | ⟨hne, hgt2⟩
    · exact hrs_bi
    · have h1 := hwf.start_busy i bb hgt2 hb2
      have h2 := hcs i
      have h3 : ¬ bi = i := fun hh => hne hh.symm
      rw [if_neg h3] at h2
      omega
  · intro i
    dsimp only
    rw [countStart_heappush_finish]
    have h1 := hwf.start_one i
    have h2 := hcs i
    omega
  · intro x hx
    dsimp only at hx ⊢
    rcases mem_heappush.mp hx with h3 | h3
    · exact htr x h3
    · rw [h3]
      simp only [Event.time]
      have h4 : (0 : ℚ) ≤ (v.axles : ℚ) * 2 := by positivity
      linarith
  · intro t2 i hx
    dsimp only at hx ⊢
    rcases mem_heappush.mp hx with h3 | h3
    · exact le_trans (hwf.start_le t2 i (hmemr _ h3)) hnt
    · cases h3
  · intro bb hbb v2 hv2
    dsimp only at hbb ⊢
    rcases List.mem_or_eq_of_mem_set hbb with h3 | rfl
    · rcases hwf.veh_q bb h3 v2 hv2 with ⟨hd, ha⟩
      exact ⟨hd, le_trans ha hnt⟩
    · rw [hb1] at hv2
      simp only at hv2
      have h4 : v2 ∈ b.vehicle_queue := by
        rw [hq]
        exact List.mem_cons_of_mem v hv2
      rcases hwf.veh_q b hbmem v2 h4 with ⟨hd, ha⟩
      exact ⟨hd, le_trans ha hnt⟩
  · intro bb hbb v2 hv2
    dsimp only at hbb ⊢
    rcases List.mem_or_eq_of_mem_set hbb with h3 | rfl
    · rcases hwf.veh_cur bb h3 v2 hv2 with ⟨hd, ha⟩
      exact ⟨hd, le_trans ha hnt⟩
    · rw [hb1] at hv2
      simp only [Option.some.injEq] at hv2
      rw [← hv2]
      have h4 : v ∈ b.vehicle_queue := by
        rw [hq]
        exact List.mem_cons_self v vq
      rcases hwf.veh_q b hbmem v h4 with ⟨hd, ha⟩
      exact ⟨hd, le_trans ha hnt⟩
  · dsimp only
    have hSl := sum_map_set st.booths (fun bb => bb.vehicle_queue.length) bi b1 b hb
    have hSb := sum_map_set st.booths (fun bb => if bb.is_busy then (1 : ℕ) else 0)
      bi b1 b hb
    have hc := hwf.conserve
    have hfb : (fun bb : TollBooth => bb.vehicle_queue.length) b = vq.length + 1 := by
      simp [hq]
    have hfb1 : (fun bb : TollBooth => bb.vehicle_queue.length) b1 = vq.length := by
      simp [hb1]
    have hgb : (fun bb : TollBooth => if bb.is_busy then (1 : ℕ) else 0) b = 0 := by
      simp [hbusy]
    have hgb1 : (fun bb : TollBooth => if bb.is_busy then (1 : ℕ) else 0) b1 = 1 := by
      simp [hb1]
    rw [hfb, hfb1] at hSl
    rw [hgb, hgb1] at hSb
    omega

/-- Invariant preservation, `FINISH_PROCESSING`: the in-service vehicle leaves,
counters are updated, and a new start event is scheduled when the queue is
non-empty. -/
lemma WF_step_finish {st : TollPlaza} (hwf : WF st) {t : ℚ} {bi : ℕ}
    {rest : List Event} {b : TollBooth} {pv : Vehicle}
    (hpop : popMin st.event_queue = some (.finish t bi, rest))
    (hb : st.booths.get? bi = some b) (hcv : b.current_vehicle = some pv) :
    WF { st with
          simulation_time := t
          booths := st.booths.set bi { b with is_busy := false, current_vehicle := none }
          event_queue := if b.vehicle_queue = [] then rest
            else heappush rest (.start t b.id)
          total_wait_time := st.total_wait_time + (t - pv.arrival_time)
          vehicles_processed := st.vehicles_processed + 1 } := by
  have hmem := popMin_mem hpop
  have hnt : st.simulation_time ≤ t := by
    simpa [Event.time] using hwf.time_ge _ hmem
  have hmemr := popMin_rest_subset hpop
  have htr : ∀ x ∈ rest, t ≤ x.time := by
    intro x hx
    simpa [Event.time] using evLE_time_le (popMin_min hpop x (hmemr x hx))
  have hcs := countStart_pop_finish hpop
  have hcf := countFinish_pop_finish hpop
  have hbl : bi < st.booths.length := hwf.finish_valid t bi hmem
  have hbid : b.id = bi := hwf.ids bi b hb
  have hbmem : b ∈ st.booths := mem_of_get?_some hb
  have hbusy : b.is_busy = true := by
    rw [hwf.busy_iff b hbmem, hcv]
    rfl
  have hfr : countFinish rest bi = 0 := by
    have h1 := hwf.finish_cnt bi b hb
    rw [hbusy, if_pos rfl] at h1
    have h2 := hcf bi
    rw [if_pos rfl] at h2
    omega
  have hs_bi : countStart st.event_queue bi = 0 := hwf.start_busy bi b hb hbusy
  set b1 : TollBooth := { b with is_busy := false, current_vehicle := none } with hb1
  set q1 : List Event :=
    if b.vehicle_queue = [] then rest else heappush rest (.start t b.id) with hq1
  have hq1_mem : ∀ x ∈ q1, x ∈ rest ∨ x = Event.start t bi := by
    intro x hx
    rw [hq1] at hx
    by_cases hqe : b.vehicle_queue = []
    · rw [if_pos hqe] at hx
      exact Or.inl hx
    · rw [if_neg hqe] at hx
      rcases mem_heappush.mp hx with h3 | h3
      · exact Or.inl h3
      · exact Or.inr (by rw [h3, hbid])
  have hq1F : ∀ i, countFinish q1 i = countFinish rest i := by
    intro i
    rw [hq1]
    by_cases hqe : b.vehicle_queue = []
    · rw [if_pos hqe]
    · rw [if_neg hqe, countFinish_heappush_start]
  have hq1Sne : ∀ i, ¬ b.id = i → countStart q1 i = countStart rest i := by
    intro i hne
    rw [hq1]
    by_cases hqe : b.vehicle_queue = []
    · rw [if_pos hqe]
    · rw [if_neg hqe, countStart_heappush_start, if_neg hne]
      omega
  have hq1Sbi : countStart q1 bi ≤ countStart rest bi + 1 := by
    rw [hq1]
    by_cases hqe : b.vehicle_queue = []
    · rw [if_pos hqe]; omega
    · rw [if_neg hqe, countStart_heappush_start]
      split <;> omega
  refine { ids := ?_, busy_iff := ?_, finish_cnt := ?_, start_valid := ?_,
           finish_valid := ?_, start_busy := ?_, start_one := ?_, time_ge := ?_,
           start_le := ?_, veh_q := ?_, veh_cur := ?_, conserve := ?_ }
  · intro i bb hgt
    dsimp only at hgt
    rcases get?_set_cases hbl hgt with ⟨rfl, rfl⟩ | ⟨_, hgt2⟩
    · simpa [hb1] using hbid
    · exact hwf.ids _ _ hgt2
  · intro bb hbb
    dsimp only at hbb
    rcases List.mem_or_eq_of_mem_set hbb with h3 | rfl
    · exact hwf.busy_iff bb h3
    · rw [hb1]; rfl
  · intro i bb hgt
    dsimp only at hgt ⊢
    rw [hq1F i]
    rcases get?_set_cases hbl hgt with ⟨rfl, rfl⟩ | ⟨hne, hgt2⟩
    · rw [hfr, hb1]
      rfl
    · have h1 := hwf.finish_cnt i bb hgt2
      have h2 := hcf i
      have h3 : ¬ bi = i := fun hh => hne hh.symm
      rw [if_neg h3] at h2
      omega
  · intro t2 i hx
    dsimp only at hx ⊢
    rw [List.length_set]
    rcases hq1_mem _ hx with h3 | h3
    · exact hwf.start_valid t2 i (hmemr _ h3)
    · cases h3
      exact hbl
  · intro t2 i hx
    dsimp only at hx ⊢
    rw [List.length_set]
    rcases hq1_mem _ hx with h3 | h3
    · exact hwf.finish_valid t2 i (hmemr _ h3)
    · cases h3
  · intro i bb hgt hb2
    dsimp only at hgt ⊢
    rcases get?_set_cases hbl hgt with ⟨rfl, rfl⟩ | ⟨hne, hgt2⟩
    · rw [hb1] at hb2
      cases hb2
    · have h4 : ¬ b.id = i := by rw [hbid]; exact fun hh => hne hh.symm
      rw [hq1Sne i h4]
      have h5 := hwf.start_busy i bb hgt2 hb2
      have h6 := hcs i
      omega
  · intro i
    dsimp only
    by_cases hi : b.id = i
    · rw [hbid] at hi
      subst hi
      have h1 := hcs bi
      have h2 := hq1Sbi
      omega
    · rw [hq1Sne i hi]
      have h1 := hcs i
      have h2 := hwf.start_one i
      omega
  · intro x hx
    dsimp only at hx ⊢
    rcases hq1_mem _ hx with h3 | h3
    · exact htr x h3
    · rw [h3]
      simp [Event.time]
  · intro t2 i hx
    dsimp only at hx ⊢
    rcases hq1_mem _ hx with h3 | h3
    · exact le_trans (hwf.start_le t2 i (hmemr _ h3)) hnt
    · cases h3
      exact le_refl t
  · intro bb hbb v2 hv2
    dsimp only at hbb ⊢
    rcases List.mem_or_eq_of_mem_set hbb with h3 | rfl
    · rcases hwf.veh_q bb h3 v2 hv2 with ⟨hd, ha⟩
      exact ⟨hd, le_trans ha hnt⟩
    · rw [hb1] at hv2
      simp only at hv2
      rcases hwf.veh_q b hbmem v2 hv2 with ⟨hd, ha⟩
      exact ⟨hd, le_trans ha hnt⟩
  · intro bb hbb v2 hv2
    dsimp only at hbb ⊢
    rcases List.mem_or_eq_of_mem_set hbb with h3 | rfl
    · rcases hwf.veh_cur bb h3 v2 hv2 with ⟨hd, ha⟩
      exact ⟨hd, le_trans ha hnt⟩
    · rw [hb1] at hv2
      cases hv2
  · dsimp only
    have hSl := sum_map_set st.booths (fun bb => bb.vehicle_queue.length) bi b1 b hb
    have hSb := sum_map_set st.booths (fun bb => if bb.is_busy then (1 : ℕ) else 0)
      bi b1 b hb
    have hc := hwf.conserve
    have hfb1 : (fun bb : TollBooth => bb.vehicle_queue.length) b1 =
        b.vehicle_queue.length := by simp [hb1]
    have hgb : (fun bb : TollBooth => if bb.is_busy then (1 : ℕ) else 0) b = 1 := by
      simp [hbusy]
    have hgb1 : (fun bb : TollBooth => if bb.is_busy then (1 : ℕ) else 0) b1 = 0 := by
      simp [hb1]
    rw [hfb1] at hSl
    rw [hgb, hgb1] at hSb
    omega

/-- One iteration of the event loop preserves the invariant. -/
theorem WF_step {gaps : ℕ → ℚ} {axs : ℕ → ℕ} {dur : ℚ} {st st2 : TollPlaza}
    {ev : TraceEv} (hg : ∀ n, 0 ≤ gaps n) (hwf : WF st)
    (h : stepSim gaps axs dur st = .next st2 ev) : WF st2 := by
  unfold stepSim at h
  by_cases h0 : st.event_queue = []
  · rw [if_pos h0] at h; cases h
  rw [if_neg h0] at h
  by_cases h1 : ¬ st.simulation_time < dur
  · rw [if_pos h1] at h; cases h
  rw [if_neg h1] at h
  rcases hpop : popMin st.event_queue with _ | ⟨e, rest⟩
  · rw [hpop] at h; dsimp only at h; cases h
  rw [hpop] at h
  dsimp only at h
  cases e with
  | arrival t =>
    dsimp only at h
    rcases hmb : minBoothAux st.booths with _ | ⟨bi, b⟩
    · rw [hmb] at h; dsimp only at h; cases h
    rw [hmb] at h
    dsimp only at h
    simp only [StepRes.next.injEq] at h
    obtain ⟨rfl, rfl⟩ := h
    exact WF_step_arrival hg hwf _ hpop hmb
  | start t bi =>
    dsimp only at h
    rcases hbp : st.booths.get? bi with _ | b
    · rw [hbp] at h; dsimp only at h; cases h
    rw [hbp] at h
    dsimp only at h
    rcases hqv : b.vehicle_queue with _ | ⟨v, vq⟩
    · rw [hqv] at h
      dsimp only at h
      simp only [StepRes.next.injEq] at h
      obtain ⟨rfl, rfl⟩ := h
      exact WF_step_start_skip hwf hpop
    · rw [hqv] at h
      dsimp only at h
      simp only [StepRes.next.injEq] at h
      obtain ⟨rfl, rfl⟩ := h
      exact WF_step_start_run hwf hpop hbp hqv
  | finish t bi =>
    dsimp only at h
    rcases hbp : st.booths.get? bi with _ | b
    · rw [hbp] at h; dsimp only at h; cases h
    rw [hbp] at h
    dsimp only at h
    rcases hcv : b.current_vehicle with _ | pv
    · rw [hcv] at h; dsimp only at h; cases h
    rw [hcv] at h
    dsimp only at h
    simp only [StepRes.next.injEq] at h
    obtain ⟨rfl, rfl⟩ := h
    exact WF_step_finish hwf hpop hbp hcv

/-- Every state along a run satisfies the invariant. -/
lemma WF_runAux {gaps : ℕ → ℚ} {axs : ℕ → ℕ} {dur : ℚ} (hg : ∀ n, 0 ≤ gaps n) :
    ∀ (n : ℕ) (st : TollPlaza), WF st → WF (runAux gaps axs dur n st).1 := by
  intro n
  induction n with
  | zero => intro st hst; exact hst
  | succ k ih =>
    intro st hst
    simp only [runAux]
    rcases hs : stepSim gaps axs dur st with _ | _ | ⟨st1, ev⟩ <;> dsimp only
    · exact hst
    · exact hst
    · exact ih st1 (WF_step hg hst hs)

/-- A handled event is stamped with the popped event's time: the clock never
runs ahead of, and is advanced exactly to, the time of each handled event. -/
lemma stepSim_next_clock {gaps : ℕ → ℚ} {axs : ℕ → ℕ} {dur : ℚ}
    {st st1 : TollPlaza} {ev : TraceEv} (hwf : WF st)
    (h : stepSim gaps axs dur st = .next st1 ev) :
    st.simulation_time ≤ ev.time ∧ st1.simulation_time = ev.time := by
  unfold stepSim at h
  by_cases h0 : st.event_queue = []
  · rw [if_pos h0] at h; cases h
  rw [if_neg h0] at h
  by_cases h1 : ¬ st.simulation_time < dur
  · rw [if_pos h1] at h; cases h
  rw [if_neg h1] at h
  rcases hpop : popMin st.event_queue with _ | ⟨e, rest⟩
  · rw [hpop] at h; dsimp only at h; cases h
  rw [hpop] at h
  dsimp only at h
  have hnt := hwf.time_ge e (popMin_mem hpop)
  cases e with
  | arrival t =>
    dsimp only at h
    rcases hmb : minBoothAux st.booths with _ | ⟨bi, b⟩
    · rw [hmb] at h; dsimp only at h; cases h
    rw [hmb] at h
    dsimp only at h
    simp only [StepRes.next.injEq] at h
    obtain ⟨rfl, rfl⟩ := h
    exact ⟨by simpa [Event.time] using hnt, rfl⟩
  | start t bi =>
    dsimp only at h
    rcases hbp : st.booths.get? bi with _ | b
    · rw [hbp] at h; dsimp only at h; cases h
    rw [hbp] at h
    dsimp only at h
    rcases hqv : b.vehicle_queue with _ | ⟨v, vq⟩
    · rw [hqv] at h
      dsimp only at h
      simp only [StepRes.next.injEq] at h
      obtain ⟨rfl, rfl⟩ := h
      exact ⟨by simpa [Event.time] using hnt, rfl⟩
    · rw [hqv] at h
      dsimp only at h
      simp only [StepRes.next.injEq] at h
      obtain ⟨rfl, rfl⟩ := h
      exact ⟨by simpa [Event.time] using hnt, rfl⟩
  | finish t bi =>
    dsimp only at h
    rcases hbp : st.booths.get? bi with _ | b
    · rw [hbp] at h; dsimp only at h; cases h
    rw [hbp] at h
    dsimp only at h
    rcases hcv : b.current_vehicle with _ | pv
    · rw [hcv] at h; dsimp only at h; cases h
    rw [hcv] at h
    dsimp only at h
    simp only [StepRes.next.injEq] at h
    obtain ⟨rfl, rfl⟩ := h
    exact ⟨by simpa [Event.time] using hnt, rfl⟩

/-- A handled `FINISH_PROCESSING` event records a non-negative wait time. -/
lemma stepSim_finishEv_wait {gaps : ℕ → ℚ} {axs : ℕ → ℕ} {dur : ℚ}
    {st st1 : TollPlaza} {t : ℚ} {bi vid : ℕ} {w : ℚ} (hwf : WF st)
    (h : stepSim gaps axs dur st = .next st1 (.finishEv t bi vid w)) : 0 ≤ w := by
  unfold stepSim at h
  by_cases h0 : st.event_queue = []
  · rw [if_pos h0] at h; cases h
  rw [if_neg h0] at h
  by_cases h1 : ¬ st.simulation_time < dur
  · rw [if_pos h1] at h; cases h
  rw [if_neg h1] at h
  rcases hpop : popMin st.event_queue with _ | ⟨e, rest⟩
  · rw [hpop] at h; dsimp only at h; cases h
  rw [hpop] at h
  dsimp only at h
  have hnt := hwf.time_ge e (popMin_mem hpop)
  cases e with
  | arrival t2 =>
    dsimp only at h
    rcases hmb : minBoothAux st.booths with _ | ⟨bi2, b⟩
    · rw [hmb] at h; dsimp only at h; cases h
    rw [hmb] at h
    dsimp only at h
    simp only [StepRes.next.injEq] at h
    exact absurd h.2 (by simp)
  | start t2 bi2 =>
    dsimp only at h
    rcases hbp : st.booths.get? bi2 with _ | b
    · rw [hbp] at h; dsimp only at h; cases h
    rw [hbp] at h
    dsimp only at h
    rcases hqv : b.vehicle_queue with _ | ⟨v, vq⟩
    · rw [hqv] at h
      dsimp only at h
      simp only [StepRes.next.injEq] at h
      exact absurd h.2 (by simp)
    · rw [hqv] at h
      dsimp only at h
      simp only [StepRes.next.injEq] at h
      exact absurd h.2 (by simp)
  | finish t2 bi2 =>
    dsimp only at h
    rcases hbp : st.booths.get? bi2 with _ | b
    · rw [hbp] at h; dsimp only at h; cases h
    rw [hbp] at h
    dsimp only at h
    rcases hcv : b.current_vehicle with _ | pv
    · rw [hcv] at h; dsimp only at h; cases h
    rw [hcv] at h
    dsimp only at h
    simp only [StepRes.next.injEq, TraceEv.finishEv.injEq] at h
    rcases h with ⟨-, rfl, -, -, rfl⟩
    have hb2 : b ∈ st.booths := mem_of_get?_some hbp
    rcases hwf.veh_cur b hb2 pv hcv with ⟨-, ha⟩
    simp only [Event.time] at hnt
    linarith

/-- A handled `START_PROCESSING` event that starts a service schedules the
matching finish event exactly `axle_count * 2` seconds later. -/
lemma stepSim_startEv_schedules {gaps : ℕ → ℚ} {axs : ℕ → ℕ} {dur : ℚ}
    {st st1 : TollPlaza} {t : ℚ} {bi vid : ℕ}
    (h : stepSim gaps axs dur st = .next st1 (.startEv t bi vid)) :
    ∃ b v vq, st.booths.get? bi = some b ∧ b.vehicle_queue = v :: vq ∧
      v.id = vid ∧ Event.finish (t + (v.axles : ℚ) * 2) b.id ∈ st1.event_queue := by
  unfold stepSim at h
  by_cases h0 : st.event_queue = []
  · rw [if_pos h0] at h; cases h
  rw [if_neg h0] at h
  by_cases h1 : ¬ st.simulation_time < dur
  · rw [if_pos h1] at h; cases h
  rw [if_neg h1] at h
  rcases hpop : popMin st.event_queue with _ | ⟨e, rest⟩
  · rw [hpop] at h; dsimp only at h; cases h
  rw [hpop] at h
  dsimp only at h
  cases e with
  | arrival t2 =>
    dsimp only at h
    rcases hmb : minBoothAux st.booths with _ | ⟨bi2, b⟩
    · rw [hmb] at h; dsimp only at h; cases h
    rw [hmb] at h
    dsimp only at h
    simp only [StepRes.next.injEq] at h
    exact absurd h.2 (by simp)
  | start t2 bi2 =>
    dsimp only at h
    rcases hbp : st.booths.get? bi2 with _ | b
    · rw [hbp] at h; dsimp only at h; cases h
    rw [hbp] at h
    dsimp only at h
    rcases hqv : b.vehicle_queue with _ | ⟨v, vq⟩
    · rw [hqv] at h
      dsimp only at h
      simp only [StepRes.next.injEq] at h
      exact absurd h.2 (by simp)
    · rw [hqv] at h
      dsimp only at h
      simp only [StepRes.next.injEq, TraceEv.startEv.injEq] at h
      rcases h with ⟨rfl, rfl, rfl, rfl⟩
      refine ⟨b, v, vq, hbp, hqv, rfl, ?_⟩
      exact mem_heappush.mpr (Or.inr rfl)
  | finish t2 bi2 =>
    dsimp only at h
    rcases hbp : st.booths.get? bi2 with _ | b
    · rw [hbp] at h; dsimp only at h; cases h
    rw [hbp] at h
    dsimp only at h
    rcases hcv : b.current_vehicle with _ | pv
    · rw [hcv] at h; dsimp only at h; cases h
    rw [hcv] at h
    dsimp only at h
    simp only [StepRes.next.injEq] at h
    exact absurd h.2 (by simp)

/-- In an invariant-satisfying state, a finish event at the head of the heap
points at a busy booth with a vehicle in service. -/
lemma WF_finish_popped {st : TollPlaza} (hwf : WF st) {t : ℚ} {bi : ℕ}
    {rest : List Event}
    (hpop : popMin st.event_queue = some (.finish t bi, rest)) :
    ∃ b, st.booths.get? bi = some b ∧ b.is_busy = true ∧
      b.current_vehicle.isSome = true := by
  have hmem := popMin_mem hpop
  have hbl : bi < st.booths.length := hwf.finish_valid t bi hmem
  have hb : st.booths.get? bi = some (st.booths.get ⟨bi, hbl⟩) := List.get?_eq_get hbl
  set b := st.booths.get ⟨bi, hbl⟩ with hbdef
  have hbusy : b.is_busy = true := by
    by_contra hc
    have h1 := hwf.finish_cnt bi b hb
    rw [if_neg hc] at h1
    have h2 := countFinish_pos_of_mem hmem
    omega
  refine ⟨b, hb, hbusy, ?_⟩
  rw [← hwf.busy_iff b (mem_of_get?_some hb)]
  exact hbusy

/-- C4.  Booth selection (`min(self.booths, key=queue length)`) returns a
booth whose queue length is minimal among all booths and, among ties, the one
with the lowest index: every booth strictly earlier in the list has a strictly
longer queue, which pins the result down deterministically. -/
theorem select_booth_min_lowest_index (bs : List TollBooth) (hne : bs ≠ []) :
    ∃ i b, minBoothAux bs = some (i, b) ∧ bs.get? i = some b ∧
      (∀ b2 ∈ bs, b.get_queue_length ≤ b2.get_queue_length) ∧
      (∀ j bj, j < i → bs.get? j = some bj →
        b.get_queue_length < bj.get_queue_length) := by
  induction bs with
  | nil => exact absurd rfl hne
  | cons a as ih =>
    rcases has : minBoothAux as with _ | ⟨i, m⟩
    · have hasnil : as = [] := by
        cases as with
        | nil => rfl
        | cons x xs =>
          simp only [minBoothAux] at has
          rcases h2 : minBoothAux xs with _ | ⟨j, m2⟩ <;> rw [h2] at has <;>
            dsimp only at has
          · cases has
          · by_cases hle : x.get_queue_length ≤ m2.get_queue_length <;>
              simp [hle] at has
      subst hasnil
      refine ⟨0, a, by simp [minBoothAux], rfl, ?_, ?_⟩
      · intro b2 hb2
        rcases List.mem_singleton.mp hb2 with rfl
        exact le_refl _
      · intro j bj hj _
        omega
    · have hasne : as ≠ [] := by
        intro hh
        rw [hh] at has
        cases has
      rcases ih hasne with ⟨i2, m2, h1, hget, hmin, hlex⟩
      rw [has] at h1
      simp only [Option.some.injEq, Prod.mk.injEq] at h1
      obtain ⟨rfl, rfl⟩ := h1
      by_cases hle : a.get_queue_length ≤ m.get_queue_length
      · refine ⟨0, a, ?_, rfl, ?_, ?_⟩
        · simp [minBoothAux, has, hle]
        · intro b2 hb2
          rcases List.mem_cons.mp hb2 with rfl | hb2
          · exact le_refl _
          · exact le_trans hle (hmin b2 hb2)
        · intro j bj hj _
          omega
      · refine ⟨i + 1, m, ?_, by simpa using hget, ?_, ?_⟩
        · simp [minBoothAux, has, hle]
        · intro b2 hb2
          rcases List.mem_cons.mp hb2 with rfl | hb2
          · exact le_of_lt (lt_of_not_le hle)
          · exact hmin b2 hb2
        · intro j bj hj hbj
          cases j with
          | zero =>
            simp only [List.get?] at hbj
            rcases Option.some_inj.mp hbj with rfl
            exact lt_of_not_le hle
          | succ k =>
            exact hlex k bj (by omega) (by simpa using hbj)

/-- Concrete booth pool for the routing witness: booth 0 has one queued
vehicle, booths 1 and 2 are empty, so the minimum is shared by booths 1 and 2
and the scan must return booth 1. -/
def wbooths : List TollBooth :=
  [{ id := 0, vehicle_queue := [{ id := 7, arrival_time := 0, departure_time := 0, axles := 2 }],
     is_busy := false, current_vehicle := none },
   { id := 1, vehicle_queue := [], is_busy := false, current_vehicle := none },
   { id := 2, vehicle_queue := [], is_busy := false, current_vehicle := none }]

/-- Witness for C4 at a concrete booth pool with a tie between booths 1 and
2. -/
theorem select_booth_min_lowest_index_witness :
    ∃ i b, minBoothAux wbooths = some (i, b) ∧ wbooths.get? i = some b ∧
      (∀ b2 ∈ wbooths, b.get_queue_length ≤ b2.get_queue_length) ∧
      (∀ j bj, j < i → wbooths.get? j = some bj →
        b.get_queue_length < bj.get_queue_length) :=
  select_booth_min_lowest_index wbooths (by simp [wbooths])

/-- C3 evidence.  `TollPlaza.__init__` has no configuration guard at all:
a zero rate dies with `ZeroDivisionError` (a division fault, not a
configuration error) at `3600 / vehicles_per_hour`, while a zero booth count
and a negative rate are accepted silently and construction succeeds. -/
theorem init_no_configuration_guard :
    TollPlaza.init 1 0 = Except.error PyError.zeroDivisionError ∧
    TollPlaza.init 0 200 = Except.ok (mkPlaza 0 18) ∧
    TollPlaza.init 3 (-50) = Except.ok (mkPlaza 3 (-72)) := by
  refine ⟨?_, ?_, ?_⟩ <;> norm_num [TollPlaza.init]

/-- Plaza state with the clock already at 5 seconds, used to exhibit the
absence of an ordering guard in event scheduling. -/
def pcx : TollPlaza :=
  { booths := []
    simulation_time := 5
    event_queue := []
    vehicles_processed := 0
    total_wait_time := 0
    next_vehicle_id := 0
    avg_arrival_interval := 18
    gapIdx := 0 }

/-- C7 counterexample.  With the clock at 5, scheduling an arrival whose
requested time 0 lies strictly in the past raises no ordering error: the
call returns normally and the past event is inserted into the queue. -/
theorem schedule_past_event_inserted_cex :
    (schedule_vehicle_arrival (fun _ => (-5 : ℚ)) pcx).event_queue =
      [Event.arrival 0] ∧
    (Event.arrival 0).time < pcx.simulation_time := by
  constructor
  · norm_num [schedule_vehicle_arrival, get_next_arrival_time, heappush, pcx]
  · norm_num [Event.time, pcx]

/-- C7 amended.  `_schedule_vehicle_arrival` performs no check of the
requested time against the clock: it always returns normally, the queue is
always extended by exactly the requested arrival event, and that event is a
member of the resulting queue — whatever its time. -/
theorem schedule_always_inserts (gaps : ℕ → ℚ) (p : TollPlaza) :
    (schedule_vehicle_arrival gaps p).event_queue =
      heappush p.event_queue (Event.arrival (p.simulation_time + gaps p.gapIdx)) ∧
    Event.arrival (p.simulation_time + gaps p.gapIdx) ∈
      (schedule_vehicle_arrival gaps p).event_queue := by
  refine ⟨rfl, ?_⟩
  simp [schedule_vehicle_arrival, heappush, get_next_arrival_time]

/-- C8.  `print_statistics` reports the processed count; the average wait
only when at least one vehicle was processed (`total_wait_time /
vehicles_processed`), the explicit "No vehicles were processed." indicator
(modelled `none`) otherwise — so no division by zero can occur — and the
remaining-queued count as the sum of all booth queue lengths. -/
theorem print_statistics_reporting (p : TollPlaza) :
    (p.vehicles_processed = 0 → (print_statistics p).average_wait_time = none) ∧
    (0 < p.vehicles_processed →
      (print_statistics p).average_wait_time =
        some (p.total_wait_time / (p.vehicles_processed : ℚ))) ∧
    (print_statistics p).vehicles_processed = p.vehicles_processed ∧
    (print_statistics p).remaining_queued =
      (p.booths.map fun b => b.get_queue_length).sum := by
  unfold print_statistics
  refine ⟨?_, ?_, rfl, rfl⟩
  · intro h
    simp [h]
  · intro h
    simp [h]

/-- Gap stream with every exponential draw equal to 10 seconds. -/
def g10 : ℕ → ℚ := fun _ => 10

/-- Zero-processed scenario, state after the first arrival is scheduled:
one booth, first arrival at time 10, duration bound 5. -/
def zc0 : TollPlaza :=
  { booths := [{ id := 0, vehicle_queue := [], is_busy := false, current_vehicle := none }]
    simulation_time := 0
    event_queue := [Event.arrival 10]
    vehicles_processed := 0
    total_wait_time := 0
    next_vehicle_id := 0
    avg_arrival_interval := 18
    gapIdx := 1 }

/-- Zero-processed scenario, after the loop handles the arrival at time 10
(the check `simulation_time < 5` used the pre-pop clock 0, so this event is
still handled): one vehicle queued, nothing processed, clock at 10 ≥ 5. -/
def zc1 : TollPlaza :=
  { booths := [{ id := 0
                 vehicle_queue := [{ id := 1, arrival_time := 10, departure_time := 0, axles := 2 }]
                 is_busy := false
                 current_vehicle := none }]
    simulation_time := 10
    event_queue := [Event.start 10 0, Event.arrival 20]
    vehicles_processed := 0
    total_wait_time := 0
    next_vehicle_id := 1
    avg_arrival_interval := 18
    gapIdx := 2 }

lemma zc_init : schedule_vehicle_arrival g10 (mkPlaza 1 18) = zc0 := by
  norm_num [schedule_vehicle_arrival, mkPlaza, heappush, get_next_arrival_time,
    g10, zc0, List.range_succ]

lemma zc_step0 : stepSim g10 axs2 5 zc0 = .next zc1 (.arrivalEv 10 1 0) := by
  norm_num [stepSim, zc0, zc1, popMin, evLE, heappush, minBoothAux,
    TollBooth.add_vehicle, TollBooth.get_queue_length, Event.time, Event.rank,
    Event.boothId, g10, axs2]
  all_goals exact fun h => absurd h (List.cons_ne_nil _ _)

lemma zc_step1 : stepSim g10 axs2 5 zc1 = .done := by
  norm_num [stepSim, zc1]

lemma zc_run : run_simulation g10 axs2 5 2 (mkPlaza 1 18) =
    (zc1, [TraceEv.arrivalEv 10 1 0], RunStatus.finished) := by
  simp only [run_simulation, zc_init, runAux, zc_step0, zc_step1]

/-- Witness for C8: in the run whose duration bound (5 s) is below the first
arrival time (10 s), no vehicle is processed; the summary carries the
explicit no-average indicator instead of a quotient, and the remaining count
equals the queue-length sum (here 1). -/
theorem print_statistics_reporting_witness :
    (run_simulation g10 axs2 5 2 (mkPlaza 1 18)).1.vehicles_processed = 0 ∧
    (print_statistics
        (run_simulation g10 axs2 5 2 (mkPlaza 1 18)).1).average_wait_time = none ∧
    (print_statistics
        (run_simulation g10 axs2 5 2 (mkPlaza 1 18)).1).remaining_queued = 1 := by
  have hz : (run_simulation g10 axs2 5 2 (mkPlaza 1 18)).1 = zc1 := by
    rw [zc_run]
  refine ⟨by rw [hz]; rfl, ?_, ?_⟩
  · exact (print_statistics_reporting _).1 (by rw [hz]; rfl)
  · rw [(print_statistics_reporting _).2.2.2, hz]
    norm_num [zc1, TollBooth.get_queue_length]

lemma g104_nonneg : ∀ n, 0 ≤ g104 n := by
  intro n
  simp only [g104]
  split
  · norm_num
  split
  · norm_num
  split <;> norm_num

/-- C2.  Conservation: in the state reached after any number of loop
iterations from the freshly started simulation (first arrival scheduled),
the number of generated vehicles (`next_vehicle_id`: ids are handed out
1, 2, …) equals `vehicles_processed` plus the sum of all booth queue lengths
plus the number of busy booths.  Quantifying over the iteration count `fuel`
covers every instant between consecutive event handlings. -/
theorem conservation_invariant (gaps : ℕ → ℚ) (axs : ℕ → ℕ) (dur itv : ℚ)
    (nb fuel : ℕ) (hg : ∀ n, 0 ≤ gaps n) :
    ((runAux gaps axs dur fuel
        (schedule_vehicle_arrival gaps (mkPlaza nb itv))).1).next_vehicle_id =
      ((runAux gaps axs dur fuel
        (schedule_vehicle_arrival gaps (mkPlaza nb itv))).1).vehicles_processed +
      (((runAux gaps axs dur fuel
        (schedule_vehicle_arrival gaps (mkPlaza nb itv))).1).booths.map
          fun b => b.vehicle_queue.length).sum +
      (((runAux gaps axs dur fuel
        (schedule_vehicle_arrival gaps (mkPlaza nb itv))).1).booths.map
          fun b => if b.is_busy then 1 else 0).sum :=
  (WF_runAux hg fuel _ (WF_start gaps nb itv hg)).conserve

/-- Witness for C2 after 4 iterations of the forced-arrival scenario:
2 generated = 1 processed + 1 queued + 0 busy. -/
theorem conservation_invariant_witness :
    ((runAux g104 axs2 104 4
        (schedule_vehicle_arrival g104 (mkPlaza 1 18))).1).next_vehicle_id =
      ((runAux g104 axs2 104 4
        (schedule_vehicle_arrival g104 (mkPlaza 1 18))).1).vehicles_processed +
      (((runAux g104 axs2 104 4
        (schedule_vehicle_arrival g104 (mkPlaza 1 18))).1).booths.map
          fun b => b.vehicle_queue.length).sum +
      (((runAux g104 axs2 104 4
        (schedule_vehicle_arrival g104 (mkPlaza 1 18))).1).booths.map
          fun b => if b.is_busy then 1 else 0).sum :=
  conservation_invariant g104 axs2 104 18 1 4 g104_nonneg

/-- C5.  Whenever the loop handles a `START_PROCESSING` event at time `t`
that actually starts a service (the booth's queue is non-empty), the finish
event it schedules for that booth has time `ft` with `ft − t` exactly equal
to the served vehicle's `axles * 2` seconds. -/
theorem service_duration_law (gaps : ℕ → ℚ) (axs : ℕ → ℕ) (dur : ℚ)
    (st st1 : TollPlaza) (t : ℚ) (bi vid : ℕ)
    (h : stepSim gaps axs dur st = .next st1 (.startEv t bi vid)) :
    ∃ b v vq, st.booths.get? bi = some b ∧ b.vehicle_queue = v :: vq ∧
      v.id = vid ∧
      ∃ ft, Event.finish ft b.id ∈ st1.event_queue ∧
        ft - t = (v.axles : ℚ) * 2 := by
  rcases stepSim_startEv_schedules h with ⟨b, v, vq, h1, h2, h3, h4⟩
  exact ⟨b, v, vq, h1, h2, h3, t + (v.axles : ℚ) * 2, h4, by ring⟩

/-- Witness for C5: the service started at time 0 in the forced-arrival
scenario schedules its finish 4 seconds later (2 axles × 2 s). -/
theorem service_duration_law_witness :
    ∃ b v vq, sc1.booths.get? 0 = some b ∧ b.vehicle_queue = v :: vq ∧
      v.id = 1 ∧
      ∃ ft, Event.finish ft b.id ∈ sc2.event_queue ∧
        ft - 0 = (v.axles : ℚ) * 2 :=
  service_duration_law g104 axs2 104 sc1 sc2 0 0 1 sc_step1

lemma runAux_trace_times {gaps : ℕ → ℚ} {axs : ℕ → ℕ} {dur : ℚ}
    (hg : ∀ n, 0 ≤ gaps n) :
    ∀ (n : ℕ) (st : TollPlaza), WF st →
      List.Chain' (· ≤ ·) (((runAux gaps axs dur n st).2.1).map TraceEv.time) ∧
      ∀ x ∈ ((runAux gaps axs dur n st).2.1).map TraceEv.time,
        st.simulation_time ≤ x := by
  intro n
  induction n with
  | zero =>
    intro st hst
    simp [runAux]
  | succ k ih =>
    intro st hst
    simp only [runAux]
    rcases hs : stepSim gaps axs dur st with _ | _ | ⟨st1, ev⟩ <;> dsimp only
    · simp
    · simp
    · rcases stepSim_next_clock hst hs with ⟨h1, h2⟩
      have hwf1 := WF_step hg hst hs
      rcases ih st1 hwf1 with ⟨hc, hall⟩
      constructor
      · rw [List.map_cons]
        refine List.chain'_cons'.mpr ⟨?_, hc⟩
        intro y hy
        have hym := List.mem_of_mem_head? hy
        have h3 := hall y hym
        linarith
      · intro x hx
        rw [List.map_cons] at hx
        rcases List.mem_cons.mp hx with rfl | hx
        · exact h1
        · have h3 := hall x hx
          linarith

/-- C6.  Monotonic clock: along any run from the freshly started simulation,
the times of consecutively handled (popped) events are non-decreasing. -/
theorem monotonic_clock (gaps : ℕ → ℚ) (axs : ℕ → ℕ) (dur itv : ℚ)
    (nb fuel : ℕ) (hg : ∀ n, 0 ≤ gaps n) :
    List.Chain' (· ≤ ·)
      (((runAux gaps axs dur fuel
          (schedule_vehicle_arrival gaps (mkPlaza nb itv))).2.1).map
        TraceEv.time) :=
  (runAux_trace_times hg fuel _ (WF_start gaps nb itv hg)).1

/-- Witness for C6: the forced-arrival run handles events at the
non-decreasing times 0, 0, 1, 4, 4, 8, 100, 100, 104. -/
theorem monotonic_clock_witness :
    List.Chain' (· ≤ ·)
      (((runAux g104 axs2 104 10
          (schedule_vehicle_arrival g104 (mkPlaza 1 18))).2.1).map
        TraceEv.time) :=
  monotonic_clock g104 axs2 104 18 1 10 g104_nonneg

lemma runAux_finish_waits {gaps : ℕ → ℚ} {axs : ℕ → ℕ} {dur : ℚ}
    (hg : ∀ n, 0 ≤ gaps n) :
    ∀ (n : ℕ) (st : TollPlaza), WF st →
      ∀ ev ∈ (runAux gaps axs dur n st).2.1,
        ∀ t bi vid w, ev = TraceEv.finishEv t bi vid w → 0 ≤ w := by
  intro n
  induction n with
  | zero =>
    intro st hst ev hev
    simp [runAux] at hev
  | succ k ih =>
    intro st hst ev hev
    simp only [runAux] at hev
    rcases hs : stepSim gaps axs dur st with _ | _ | ⟨st1, ev1⟩
    · rw [hs] at hev; dsimp only at hev; simp at hev
    · rw [hs] at hev; dsimp only at hev; simp at hev
    · rw [hs] at hev
      dsimp only at hev
      rcases List.mem_cons.mp hev with rfl | hev2
      · intro t bi vid w hw
        subst hw
        exact stepSim_finishEv_wait hst hs
      · exact ih st1 (WF_step hg hst hs) ev hev2

/-- C9.  `departure_time` keeps its initial value 0 — the "not yet departed"
placeholder set by `Vehicle.__init__` — for every vehicle that is queued or
in service at any reachable instant; and every wait recorded at a service
completion (`departure_time − arrival_time` with `departure_time` assigned
the finish time) is non-negative, i.e. the assigned departure time is at
least the arrival time. -/
theorem departure_time_unset_until_finish (gaps : ℕ → ℚ) (axs : ℕ → ℕ)
    (dur itv : ℚ) (nb fuel : ℕ) (hg : ∀ n, 0 ≤ gaps n) :
    (∀ b ∈ ((runAux gaps axs dur fuel
        (schedule_vehicle_arrival gaps (mkPlaza nb itv))).1).booths,
      (∀ v ∈ b.vehicle_queue, v.departure_time = 0) ∧
      (∀ v, b.current_vehicle = some v → v.departure_time = 0)) ∧
    (∀ ev ∈ (runAux gaps axs dur fuel
        (schedule_vehicle_arrival gaps (mkPlaza nb itv))).2.1,
      ∀ t bi vid w, ev = TraceEv.finishEv t bi vid w → 0 ≤ w) := by
  have hwf := @WF_runAux gaps axs dur hg fuel
    (schedule_vehicle_arrival gaps (mkPlaza nb itv)) (WF_start gaps nb itv hg)
  refine ⟨?_, runAux_finish_waits hg fuel _ (WF_start gaps nb itv hg)⟩
  intro b hb
  exact ⟨fun v hv => (hwf.veh_q b hb v hv).1,
         fun v hv => (hwf.veh_cur b hb v hv).1⟩

/-- Witness for C9 on the forced-arrival run (10 iterations). -/
theorem departure_time_unset_until_finish_witness :
    (∀ b ∈ ((runAux g104 axs2 104 10
        (schedule_vehicle_arrival g104 (mkPlaza 1 18))).1).booths,
      (∀ v ∈ b.vehicle_queue, v.departure_time = 0) ∧
      (∀ v, b.current_vehicle = some v → v.departure_time = 0)) ∧
    (∀ ev ∈ (runAux g104 axs2 104 10
        (schedule_vehicle_arrival g104 (mkPlaza 1 18))).2.1,
      ∀ t bi vid w, ev = TraceEv.finishEv t bi vid w → 0 ≤ w) :=
  departure_time_unset_until_finish g104 axs2 104 18 1 10 g104_nonneg

lemma finish_mem_of_countFinish_pos {q : List Event} {i : ℕ}
    (h : 0 < countFinish q i) : ∃ t, Event.finish t i ∈ q := by
  rcases List.countP_pos.mp h with ⟨e, he, hp⟩
  cases e with
  | finish t b =>
    simp [isFinishFor] at hp
    exact ⟨t, hp ▸ he⟩
  | arrival t => simp [isFinishFor] at hp
  | start t b => simp [isFinishFor] at hp

/-- C10.  In every reachable state, whenever the head of the heap is a
`FINISH_PROCESSING` event for booth `bi`, that booth is busy and holds a
vehicle in service — so the finish handler never dereferences a missing
in-service vehicle — and every booth has at most one outstanding finish
event (at most one service in flight). -/
theorem finish_handler_safety (gaps : ℕ → ℚ) (axs : ℕ → ℕ) (dur itv : ℚ)
    (nb n : ℕ) (hg : ∀ m, 0 ≤ gaps m) :
    (∀ t bi rest,
      popMin ((runAux gaps axs dur n
          (schedule_vehicle_arrival gaps (mkPlaza nb itv))).1).event_queue =
        some (.finish t bi, rest) →
      ∃ b, ((runAux gaps axs dur n
          (schedule_vehicle_arrival gaps (mkPlaza nb itv))).1).booths.get? bi =
            some b ∧
        b.is_busy = true ∧ b.current_vehicle.isSome = true) ∧
    (∀ bi, countFinish ((runAux gaps axs dur n
        (schedule_vehicle_arrival gaps (mkPlaza nb itv))).1).event_queue bi ≤ 1) := by
  have hwf := @WF_runAux gaps axs dur hg n
    (schedule_vehicle_arrival gaps (mkPlaza nb itv)) (WF_start gaps nb itv hg)
  constructor
  · intro t bi rest hpop
    exact WF_finish_popped hwf hpop
  · intro bi
    by_cases hbl : bi < ((runAux gaps axs dur n
        (schedule_vehicle_arrival gaps (mkPlaza nb itv))).1).booths.length
    · have hb := List.get?_eq_get hbl
      have h1 := hwf.finish_cnt bi _ hb
      rw [h1]
      split <;> omega
    · by_contra hc
      have hpos : 0 < countFinish ((runAux gaps axs dur n
          (schedule_vehicle_arrival gaps (mkPlaza nb itv))).1).event_queue bi := by
        omega
      rcases finish_mem_of_countFinish_pos hpos with ⟨t, hmem⟩
      exact hbl (hwf.finish_valid t bi hmem)

/-- Witness for C10: after 8 iterations of the forced-arrival scenario the
heap head is the finish event at time 104 for booth 0, and booth 0 is busy
with vehicle 3 in service. -/
theorem finish_handler_safety_witness :
    ∃ b, ((runAux g104 axs2 104 8
        (schedule_vehicle_arrival g104 (mkPlaza 1 18))).1).booths.get? 0 =
          some b ∧
      b.is_busy = true ∧ b.current_vehicle.isSome = true := by
  have hrun : (runAux g104 axs2 104 8
      (schedule_vehicle_arrival g104 (mkPlaza 1 18))).1 = sc8 := by
    simp only [sc_init, runAux, sc_step0, sc_step1, sc_step2, sc_step3,
      sc_step4, sc_step5, sc_step6, sc_step7]
  refine (finish_handler_safety g104 axs2 104 18 1 8 g104_nonneg).1 104 0
    [Event.arrival 1100] ?_
  rw [hrun]
  norm_num [popMin, sc8, evLE, Event.time, Event.rank, Event.boothId]
